import Mathlib

/-!
Verification of the Animal Crossing dialogue codec and watch-loop orchestrator
(`ac_parser_encoder.py`): a shallow embedding of the character/control tables,
`parse_ac_text`, `encode_ac_text` (with its normalization pipeline), the
`ConversationState` machine, the "Feeling chatty" menu injection, one iteration
of the `watch_dialogue` poll body, and the generation gate, together with
theorems settling the specification claims.

Texts are modelled as `List Char`, byte buffers as `List Nat` (each < 256 where
produced), and Python exceptions as `Except` errors.
-/

namespace ACG

/-! ### Small helpers -/

def cstr (s : String) : List Char := s.data

/-- Uppercase hex digit for a value < 16 (as produced by Python `"%X"`). -/
def hexDigitChar (n : Nat) : Char :=
  if n < 10 then Char.ofNat (48 + n) else Char.ofNat (55 + n)

/-- Uppercase hex digits of `n` (empty for 0), most significant first.
Structural recursion on a fuel bound (`n` itself suffices, since `n / 16 < n`
for positive `n`), so that the kernel can evaluate it. -/
def natToHexGo : Nat → Nat → List Char
  | 0, _ => []
  | _ + 1, 0 => []
  | fuel + 1, n + 1 => natToHexGo fuel ((n + 1) / 16) ++ [hexDigitChar ((n + 1) % 16)]

def natToHex (n : Nat) : List Char := natToHexGo n n

theorem natToHexGo_irrel : ∀ (f1 f2 n : Nat), n ≤ f1 → n ≤ f2 →
    natToHexGo f1 n = natToHexGo f2 n := by
  intro f1
  induction f1 with
  | zero =>
    intro f2 n h1 _
    interval_cases n
    cases f2 <;> rfl
  | succ f ih =>
    intro f2 n h1 h2
    match f2, n with
    | f2, 0 => cases f2 <;> rfl
    | 0, n + 1 => omega
    | f2 + 1, n + 1 =>
      simp only [natToHexGo]
      rw [ih f2 ((n + 1) / 16) (by omega) (by omega)]

/-- Step equation of `natToHex` for a positive argument. -/
theorem natToHex_succ (n : Nat) (h : n ≠ 0) :
    natToHex n = natToHex (n / 16) ++ [hexDigitChar (n % 16)] := by
  match n, h with
  | n + 1, _ =>
    show natToHexGo (n + 1) (n + 1) = _
    simp only [natToHexGo]
    rw [natToHexGo_irrel n ((n + 1) / 16) ((n + 1) / 16) (by omega) le_rfl]
    rfl

/-- Python `"{:0wX}".format(n)` / `.upper().zfill(w)`: uppercase hex, left
zero-padded to width `w` (longer if `n` needs more digits). -/
def hexPad (w : Nat) (n : Nat) : List Char :=
  let d := if n = 0 then ['0'] else natToHex n
  List.replicate (w - d.length) '0' ++ d

/-- Value of a hex digit character (supports both cases, as `int(s, 16)`). -/
def hexCharVal (c : Char) : Nat :=
  if 48 ≤ c.toNat ∧ c.toNat ≤ 57 then c.toNat - 48
  else if 65 ≤ c.toNat ∧ c.toNat ≤ 70 then c.toNat - 55
  else if 97 ≤ c.toNat ∧ c.toNat ≤ 102 then c.toNat - 87
  else 0

/-- `int(digits, 16)` on a digit list. -/
def hexValue (ds : List Char) : Nat :=
  ds.foldl (fun acc c => 16 * acc + hexCharVal c) 0

def isHexDigitChar (c : Char) : Bool :=
  (48 ≤ c.toNat ∧ c.toNat ≤ 57) ∨ (65 ≤ c.toNat ∧ c.toNat ≤ 70) ∨
    (97 ≤ c.toNat ∧ c.toNat ≤ 102)

/-- Python `\s` / `str.strip` whitespace (ASCII range, which covers all inputs
appearing in this development). -/
def pyIsSpace (c : Char) : Bool :=
  c = ' ' ∨ c = '\t' ∨ c = '\n' ∨ c = '\x0b' ∨ c = '\x0c' ∨ c = '\r'

/-- Decimal digits of `n` (Python `str(n)` / `"{}".format(n)`), with the same
fuel pattern as `natToHexGo`. -/
def natToDecGo : Nat → Nat → List Char
  | 0, _ => []
  | _ + 1, 0 => []
  | fuel + 1, n + 1 => natToDecGo fuel ((n + 1) / 10) ++ [Char.ofNat (48 + (n + 1) % 10)]

def natToDec (n : Nat) : List Char := natToDecGo n n

def decStr (n : Nat) : List Char := if n = 0 then ['0'] else natToDec n

def listPrefixOf : List Char → List Char → Bool
  | [], _ => true
  | _ :: _, [] => false
  | p :: ps, c :: cs => p = c && listPrefixOf ps cs

/-- Python `needle in hay` on strings (substring containment). -/
def pyContains (hay needle : List Char) : Bool :=
  match hay with
  | [] => listPrefixOf needle []
  | _ :: rest => listPrefixOf needle hay || pyContains rest needle

/-- Python `str.strip()`. -/
def pyStrip (s : List Char) : List Char :=
  ((s.dropWhile pyIsSpace).reverse.dropWhile pyIsSpace).reverse

/-- Lookup in an association list built like a Python dict literal: a later
binding of the same key overrides an earlier one (so we scan the reversed
list). -/
def dictGet {α : Type} (m : List (Nat × α)) (k : Nat) : Option α :=
  (m.reverse.find? (fun p => p.1 = k)).map (fun p => p.2)

def dictGetL {α : Type} [DecidableEq α] (m : List (α × Nat)) (k : α) : Option Nat :=
  (m.reverse.find? (fun p => p.1 = k)).map (fun p => p.2)

/-! ### Static tables (`ac_parser_encoder.py`, "Data from Decompilation") -/

def PREFIX_BYTE : Nat := 0x7F

/-- `CHARACTER_MAP`: byte value → display string.  The two ASCII quote
characters are written via their code points (34 = double quote,
39 = apostrophe). -/
def CHARACTER_MAP : List (Nat × List Char) := [
  (0x00, cstr "¡"), (0x01, cstr "¿"), (0x02, cstr "Ä"), (0x03, cstr "À"),
  (0x04, cstr "Á"), (0x05, cstr "Â"), (0x06, cstr "Ã"), (0x07, cstr "Å"),
  (0x08, cstr "Ç"), (0x09, cstr "È"), (0x0A, cstr "É"), (0x0B, cstr "Ê"),
  (0x0C, cstr "Ë"), (0x0D, cstr "Ì"), (0x0E, cstr "Í"), (0x0F, cstr "Î"),
  (0x10, cstr "Ï"), (0x11, cstr "Ð"), (0x12, cstr "Ñ"), (0x13, cstr "Ò"),
  (0x14, cstr "Ó"), (0x15, cstr "Ô"), (0x16, cstr "Õ"), (0x17, cstr "Ö"),
  (0x18, cstr "Ø"), (0x19, cstr "Ù"), (0x1A, cstr "Ú"), (0x1B, cstr "Û"),
  (0x1C, cstr "Ü"), (0x1D, cstr "ß"), (0x1E, cstr "Þ"), (0x1F, cstr "à"),
  (0x20, cstr " "), (0x21, cstr "!"), (0x22, [Char.ofNat 34]), (0x23, cstr "á"),
  (0x24, cstr "â"), (0x25, cstr "%"), (0x26, cstr "&"), (0x27, [Char.ofNat 39]),
  (0x28, cstr "("), (0x29, cstr ")"), (0x2A, cstr "~"), (0x2B, cstr "♥"),
  (0x2C, cstr ","), (0x2D, cstr "-"), (0x2E, cstr "."), (0x2F, cstr "♪"),
  (0x30, cstr "0"), (0x31, cstr "1"), (0x32, cstr "2"), (0x33, cstr "3"),
  (0x34, cstr "4"), (0x35, cstr "5"), (0x36, cstr "6"), (0x37, cstr "7"),
  (0x38, cstr "8"), (0x39, cstr "9"), (0x3A, cstr ":"), (0x3B, cstr "🌢"),
  (0x3C, cstr "<"), (0x3D, cstr "="), (0x3E, cstr ">"), (0x3F, cstr "?"),
  (0x40, cstr "@"), (0x41, cstr "A"), (0x42, cstr "B"), (0x43, cstr "C"),
  (0x44, cstr "D"), (0x45, cstr "E"), (0x46, cstr "F"), (0x47, cstr "G"),
  (0x48, cstr "H"), (0x49, cstr "I"), (0x4A, cstr "J"), (0x4B, cstr "K"),
  (0x4C, cstr "L"), (0x4D, cstr "M"), (0x4E, cstr "N"), (0x4F, cstr "O"),
  (0x50, cstr "P"), (0x51, cstr "Q"), (0x52, cstr "R"), (0x53, cstr "S"),
  (0x54, cstr "T"), (0x55, cstr "U"), (0x56, cstr "V"), (0x57, cstr "W"),
  (0x58, cstr "X"), (0x59, cstr "Y"), (0x5A, cstr "Z"), (0x5B, cstr "ã"),
  (0x5C, cstr "💢"), (0x5D, cstr "ä"), (0x5E, cstr "å"), (0x5F, cstr "_"),
  (0x60, cstr "ç"), (0x61, cstr "a"), (0x62, cstr "b"), (0x63, cstr "c"),
  (0x64, cstr "d"), (0x65, cstr "e"), (0x66, cstr "f"), (0x67, cstr "g"),
  (0x68, cstr "h"), (0x69, cstr "i"), (0x6A, cstr "j"), (0x6B, cstr "k"),
  (0x6C, cstr "l"), (0x6D, cstr "m"), (0x6E, cstr "n"), (0x6F, cstr "o"),
  (0x70, cstr "p"), (0x71, cstr "q"), (0x72, cstr "r"), (0x73, cstr "s"),
  (0x74, cstr "t"), (0x75, cstr "u"), (0x76, cstr "v"), (0x77, cstr "w"),
  (0x78, cstr "x"), (0x79, cstr "y"), (0x7A, cstr "z"), (0x7B, cstr "è"),
  (0x7C, cstr "é"), (0x7D, cstr "ê"), (0x7E, cstr "ë"), (0x81, cstr "ì"),
  (0x82, cstr "í"), (0x83, cstr "î"), (0x84, cstr "ï"), (0x85, cstr "•"),
  (0x86, cstr "ð"), (0x87, cstr "ñ"), (0x88, cstr "ò"), (0x89, cstr "ó"),
  (0x8A, cstr "ô"), (0x8B, cstr "õ"), (0x8C, cstr "ö"), (0x8D, cstr "⁰"),
  (0x8E, cstr "ù"), (0x8F, cstr "ú"), (0x90, cstr "ー"), (0x91, cstr "û"),
  (0x92, cstr "ü"), (0x93, cstr "ý"), (0x94, cstr "ÿ"), (0x95, cstr "þ"),
  (0x96, cstr "Ý"), (0x97, cstr "¦"), (0x98, cstr "§"), (0x99, cstr "a̱"),
  (0x9A, cstr "o̱"), (0x9B, cstr "‖"), (0x9C, cstr "µ"), (0x9D, cstr "³"),
  (0x9E, cstr "²"), (0x9F, cstr "¹"), (0xA0, cstr "¯"), (0xA1, cstr "¬"),
  (0xA2, cstr "Æ"), (0xA3, cstr "æ"), (0xA4, cstr "„"), (0xA5, cstr "»"),
  (0xA6, cstr "«"), (0xA7, cstr "☀"), (0xA8, cstr "☁"), (0xA9, cstr "☂"),
  (0xAA, cstr "🌬"), (0xAB, cstr "☃"), (0xAE, cstr "/"), (0xAF, cstr "∞"),
  (0xB0, cstr "○"), (0xB1, cstr "🗙"), (0xB2, cstr "□"), (0xB3, cstr "△"),
  (0xB4, cstr "+"), (0xB5, cstr "⚡"), (0xB6, cstr "♂"), (0xB7, cstr "♀"),
  (0xB8, cstr "🍀"), (0xB9, cstr "★"), (0xBA, cstr "💀"), (0xBB, cstr "😮"),
  (0xBC, cstr "😄"), (0xBD, cstr "😣"), (0xBE, cstr "😠"), (0xBF, cstr "😃"),
  (0xC0, cstr "×"), (0xC1, cstr "÷"), (0xC2, cstr "🔨"), (0xC3, cstr "🎀"),
  (0xC4, cstr "✉"), (0xC5, cstr "💰"), (0xC6, cstr "🐾"), (0xC7, cstr "🐶"),
  (0xC8, cstr "🐱"), (0xC9, cstr "🐰"), (0xCA, cstr "🐦"), (0xCB, cstr "🐮"),
  (0xCC, cstr "🐷"), (0xCD, cstr "\n"), (0xCE, cstr "🐟"), (0xCF, cstr "🐞"),
  (0xD0, cstr ";"), (0xD1, cstr "#")]

/-- `REVERSE_CHARACTER_MAP = {v: k for k, v in CHARACTER_MAP.items()}` — the
dict comprehension makes a later pair override an earlier one with the same
value, which `dictGetL` reproduces. -/
def REVERSE_CHARACTER_MAP : List (List Char × Nat) :=
  CHARACTER_MAP.map (fun p => (p.2, p.1))

/-- `REVERSE_CHARACTER_MAP.get(char)` for a single Python character. -/
def revCharGet (c : Char) : Option Nat := dictGetL REVERSE_CHARACTER_MAP [c]

def CODE_ARG_COUNT : List (Nat × Nat) := [
  (0x03, 1), (0x05, 3), (0x08, 3), (0x09, 3), (0x0A, 3), (0x0B, 3), (0x0C, 3),
  (0x0E, 2), (0x0F, 2), (0x10, 2), (0x11, 2), (0x12, 2), (0x13, 4), (0x14, 6),
  (0x15, 8), (0x16, 4), (0x17, 6), (0x18, 8), (0x50, 4), (0x53, 1), (0x54, 2),
  (0x56, 2), (0x57, 2), (0x59, 1), (0x5A, 2)]

/-- `CODE_ARG_COUNT.get(command, 0)`. -/
def argCount (command : Nat) : Nat := (dictGet CODE_ARG_COUNT command).getD 0

def EXPRESSION_MAP : List (Nat × List Char) := [
  (0x00, cstr "None?"), (0x01, cstr "Glare"), (0x02, cstr "Shocked"),
  (0x03, cstr "Laugh"), (0x04, cstr "Surprised"), (0x05, cstr "Angry"),
  (0x06, cstr "Excited"), (0x07, cstr "Worried"), (0x08, cstr "Scared"),
  (0x09, cstr "Cry"), (0x0A, cstr "Happy"), (0x0B, cstr "Wondering"),
  (0x0C, cstr "Idea"), (0x0D, cstr "Sad"), (0x0E, cstr "Happy Dance"),
  (0x0F, cstr "Thinking"), (0x10, cstr "Depressed"), (0x11, cstr "Heartbroken"),
  (0x12, cstr "Sinister"), (0x13, cstr "Tired"), (0x14, cstr "Love"),
  (0x15, cstr "Smile"), (0x16, cstr "Scowl"), (0x17, cstr "Frown"),
  (0x18, cstr "Laughing (Sitting)"), (0x19, cstr "Shocked (Sitting)"),
  (0x1A, cstr "Idea (Sitting)"), (0x1B, cstr "Surprised (Sitting)"),
  (0x1C, cstr "Angry (Sitting)"), (0x1D, cstr "Smile (Sitting)"),
  (0x1E, cstr "Frown (Sitting)"), (0x1F, cstr "Wondering (Sitting)"),
  (0x20, cstr "Salute"), (0x21, cstr "Angry (Resetti)"),
  (0x22, cstr "Reset Expressions (Resetti)"), (0x23, cstr "Sad (Resetti)"),
  (0x24, cstr "Excitement (Resetti)"), (0x25, cstr "Jaw Drop (Resetti)"),
  (0x26, cstr "Annoyed (Resetti)"), (0x27, cstr "Furious (Resetti)"),
  (0x28, cstr "Surprised (K.K.)"), (0x29, cstr "Fortune"),
  (0x2A, cstr "Smile (Resetti)"), (0xFD, cstr "Reset Expressions (K.K.)"),
  (0xFE, cstr "Reset Expressions (Sitting)"), (0xFF, cstr "Reset Expressions")]

def MUSIC_TRANSITIONS : List (Nat × List Char) := [
  (0x00, cstr "None"), (0x01, cstr "Undetermined"), (0x02, cstr "Fade")]

def SOUNDEFFECT_LIST : List (Nat × List Char) := [
  (0x00, cstr "Bell Transaction"), (0x01, cstr "Happy"), (0x02, cstr "Very Happy"),
  (0x03, cstr "Variable 0"), (0x04, cstr "Variable 1"), (0x05, cstr "Annoyed"),
  (0x06, cstr "Thunder"), (0x07, cstr "None")]

def MUSIC_LIST : List (Nat × List Char) := [
  (0x00, cstr "Silence"), (0x01, cstr "Arriving in Town"),
  (0x02, cstr "House Selection"), (0x03, cstr "House Selected"),
  (0x04, cstr "House Selected (2)"), (0x05, cstr "Resetti"),
  (0x06, cstr "Current Hourly Music"), (0x07, cstr "Resetti (2)"),
  (0x08, cstr "Don Resetti")]

def PLAYER_EMOTIONS : List (Nat × List Char) := [
  (0x02, cstr "Surprised"), (0xFD, cstr "Purple Mist"), (0xFE, cstr "Scared"),
  (0xFF, cstr "Reset Emotion")]

/-! ### Control-code display templates

A Python template string such as `"<Pause [{:02X}]>"` is modelled structurally
as literal pieces interleaved with format slots (`{:02X}`/`{:04X}`/`{:06X}`
hex slots and plain `{}` slots), so that both `str.format` and the
bracket-blanking used to build `REVERSE_CONTROL_CODES` can be computed. -/

inductive TPart : Type
  | lit : List Char → TPart
  | ahex : Nat → TPart
  | astr : TPart
deriving DecidableEq

abbrev Template := List TPart

inductive FmtArg : Type
  | num : Nat → FmtArg
  | strv : List Char → FmtArg
deriving DecidableEq

/-- `CONTROL_CODES`, each template split at its format slots. -/
def CONTROL_CODES : List (Nat × Template) := [
  (0x00, [.lit (cstr "<End Conversation>")]),
  (0x01, [.lit (cstr "<Continue>")]),
  (0x02, [.lit (cstr "<Clear Text>")]),
  (0x03, [.lit (cstr "<Pause ["), .ahex 2, .lit (cstr "]>")]),
  (0x04, [.lit (cstr "<Press A>")]),
  (0x05, [.lit (cstr "<Color Line ["), .ahex 6, .lit (cstr "]>")]),
  (0x06, [.lit (cstr "<Instant Skip>")]),
  (0x07, [.lit (cstr "<Unskippable>")]),
  (0x08, [.lit (cstr "<Player Emotion ["), .ahex 2, .lit (cstr "] ["), .astr,
          .lit (cstr "]>")]),
  (0x09, [.lit (cstr "<NPC Expression [Cat:"), .ahex 2, .lit (cstr "] ["), .astr,
          .lit (cstr "]>")]),
  (0x0A, [.lit (cstr "<Set Demo Order ["), .ahex 2, .lit (cstr ", "), .ahex 2,
          .lit (cstr ", "), .ahex 2, .lit (cstr "]>")]),
  (0x0B, [.lit (cstr "<Set Demo Order ["), .ahex 2, .lit (cstr ", "), .ahex 2,
          .lit (cstr ", "), .ahex 2, .lit (cstr "]>")]),
  (0x0C, [.lit (cstr "<Set Demo Order ["), .ahex 2, .lit (cstr ", "), .ahex 2,
          .lit (cstr ", "), .ahex 2, .lit (cstr "]>")]),
  (0x0D, [.lit (cstr "<Open Choice Menu>")]),
  (0x0E, [.lit (cstr "<Set Jump ["), .ahex 4, .lit (cstr "]>")]),
  (0x0F, [.lit (cstr "<Choice 1 Jump ["), .ahex 4, .lit (cstr "]>")]),
  (0x10, [.lit (cstr "<Choice 2 Jump ["), .ahex 4, .lit (cstr "]>")]),
  (0x11, [.lit (cstr "<Choice 3 Jump ["), .ahex 4, .lit (cstr "]>")]),
  (0x12, [.lit (cstr "<Choice 4 Jump ["), .ahex 4, .lit (cstr "]>")]),
  (0x13, [.lit (cstr "<Rand Jump 2 ["), .ahex 4, .lit (cstr ", "), .ahex 4,
          .lit (cstr "]>")]),
  (0x14, [.lit (cstr "<Rand Jump 3 ["), .ahex 4, .lit (cstr ", "), .ahex 4,
          .lit (cstr ", "), .ahex 4, .lit (cstr "]>")]),
  (0x15, [.lit (cstr "<Rand Jump 4 ["), .ahex 4, .lit (cstr ", "), .ahex 4,
          .lit (cstr ", "), .ahex 4, .lit (cstr ", "), .ahex 4, .lit (cstr "]>")]),
  (0x16, [.lit (cstr "<Set 2 Choices ["), .ahex 4, .lit (cstr ", "), .ahex 4,
          .lit (cstr "]>")]),
  (0x17, [.lit (cstr "<Set 3 Choices ["), .ahex 4, .lit (cstr ", "), .ahex 4,
          .lit (cstr ", "), .ahex 4, .lit (cstr "]>")]),
  (0x18, [.lit (cstr "<Set 4 Choices ["), .ahex 4, .lit (cstr ", "), .ahex 4,
          .lit (cstr ", "), .ahex 4, .lit (cstr ", "), .ahex 4, .lit (cstr "]>")]),
  (0x19, [.lit (cstr "<Force Dialog Switch>")]),
  (0x1A, [.lit (cstr "<Player Name>")]),
  (0x1B, [.lit (cstr "<NPC Name>")]),
  (0x1C, [.lit (cstr "<Catchphrase>")]),
  (0x1D, [.lit (cstr "<Year>")]),
  (0x1E, [.lit (cstr "<Month>")]),
  (0x1F, [.lit (cstr "<Day of Week>")]),
  (0x20, [.lit (cstr "<Day>")]),
  (0x21, [.lit (cstr "<Hour>")]),
  (0x22, [.lit (cstr "<Minute>")]),
  (0x23, [.lit (cstr "<Second>")]),
  (0x24, [.lit (cstr "<String 0>")]),
  (0x25, [.lit (cstr "<String 1>")]),
  (0x26, [.lit (cstr "<String 2>")]),
  (0x27, [.lit (cstr "<String 3>")]),
  (0x28, [.lit (cstr "<String 4>")]),
  (0x2F, [.lit (cstr "<Town Name>")]),
  (0x50, [.lit (cstr "<Color ["), .ahex 6, .lit (cstr "] for ["), .ahex 2,
          .lit (cstr "] chars>")]),
  (0x53, [.lit (cstr "<Line Type ["), .ahex 2, .lit (cstr "]>")]),
  (0x54, [.lit (cstr "<Char Size ["), .ahex 4, .lit (cstr "]>")]),
  (0x56, [.lit (cstr "<Play Music ["), .astr, .lit (cstr "] ["), .astr,
          .lit (cstr "]>")]),
  (0x57, [.lit (cstr "<Stop Music ["), .astr, .lit (cstr "] ["), .astr,
          .lit (cstr "]>")]),
  (0x59, [.lit (cstr "<Play Sound Effect ["), .astr, .lit (cstr "]>")]),
  (0x5A, [.lit (cstr "<Line Size ["), .ahex 4, .lit (cstr "]>")]),
  (0x76, [.lit (cstr "<AM/PM>")]),
  (0x4C, [.lit (cstr "<Angry Voice>")])]

/-- The template string itself, with format slots shown literally (this is how
an unformatted template would be appended by the `except` fallback). -/
def rawDesc : Template → List Char
  | [] => []
  | .lit s :: rest => s ++ rawDesc rest
  | .ahex w :: rest => cstr "\x7b:0" ++ decStr w ++ cstr "X\x7d" ++ rawDesc rest
  | .astr :: rest => cstr "\x7b\x7d" ++ rawDesc rest

/-- `template.format(*args)`: `none` when the tuple runs out (`IndexError`,
caught by the source's `try`/`except`). A hex slot formats its number via
zero-padded uppercase hex, a plain slot renders strings verbatim and numbers
in decimal. A string reaching a hex slot cannot occur in the source's
per-command tuples; it is folded into the same fallback. -/
def fmtParts : Template → List FmtArg → Option (List Char)
  | [], _ => some []
  | .lit s :: rest, args => (fmtParts rest args).map (fun t => s ++ t)
  | .ahex _ :: _, [] => none
  | .ahex w :: rest, .num n :: args => (fmtParts rest args).map (fun t => hexPad w n ++ t)
  | .ahex _ :: _, .strv _ :: _ => none
  | .astr :: _, [] => none
  | .astr :: rest, .num n :: args => (fmtParts rest args).map (fun t => decStr n ++ t)
  | .astr :: rest, .strv s :: args => (fmtParts rest args).map (fun t => s ++ t)

/-- `desc.format(*args_tuple)` wrapped in the source's
`try ... except (TypeError, IndexError): text_buffer.append(desc)`. -/
def fmtDesc (t : Template) (args : List FmtArg) : List Char :=
  (fmtParts t args).getD (rawDesc t)

/-- Big-endian 16-bit pairs: `for j in range(0, num_args, 2):
struct.unpack('>H', args_bytes[j:j+2])`. -/
def pairsBE : List Nat → List FmtArg
  | a :: b :: rest => .num (a * 256 + b) :: pairsBE rest
  | _ => []

/-- The `args_tuple` built by `parse_ac_text` for a command whose `num_args`
argument bytes are `ab` (callers pass exactly `num_args` bytes). -/
def controlArgsTuple (command : Nat) (numArgs : Nat) (ab : List Nat) : List FmtArg :=
  if command = 0x08 ∨ command = 0x09 then
    match ab with
    | a :: b :: c :: _ =>
      let val := b * 256 + c
      let name :=
        if command = 0x09 then
          (dictGet EXPRESSION_MAP val).getD (cstr "Unknown_" ++ hexPad 4 val)
        else
          (dictGet PLAYER_EMOTIONS val).getD (cstr "Unknown_Emotion_" ++ hexPad 4 val)
      [.num a, .strv name]
    | _ => []
  else if command = 0x56 ∨ command = 0x57 then
    match ab with
    | m :: t :: _ =>
      [.strv ((dictGet MUSIC_LIST m).getD (cstr "Unknown_Music_" ++ hexPad 2 m)),
       .strv ((dictGet MUSIC_TRANSITIONS t).getD (cstr "Unknown_Transition_" ++ hexPad 2 t))]
    | _ => []
  else if numArgs = 1 then
    if command = 0x59 then
      match ab with
      | s :: _ => [.strv ((dictGet SOUNDEFFECT_LIST s).getD (cstr "Unknown_Sound_" ++ hexPad 2 s))]
      | _ => []
    else
      match ab with
      | a :: _ => [.num a]
      | _ => []
  else if numArgs = 2 then
    match ab with
    | a :: b :: _ => [.num (a * 256 + b)]
    | _ => []
  else if numArgs = 3 ∧ command = 0x05 then
    match ab with
    | a :: b :: c :: _ => [.num (a * 65536 + b * 256 + c)]
    | _ => []
  else if numArgs = 3 then
    match ab with
    | a :: b :: c :: _ => [.num a, .num b, .num c]
    | _ => []
  else if numArgs = 4 ∧ command = 0x50 then
    match ab with
    | a :: b :: c :: d :: _ => [.num (a * 65536 + b * 256 + c), .num d]
    | _ => []
  else pairsBE ab

/-- The generic passthrough for an opcode absent from `CONTROL_CODES`. -/
def genericCode (command : Nat) : Template :=
  [.lit (cstr "<Code 0x" ++ hexPad 2 command ++ cstr ">")]

def malformedCode (command : Nat) : List Char :=
  cstr "<Malformed Code 0x" ++ hexPad 2 command ++ cstr ">"

/-- The scanning loop of `parse_ac_text`, expressed on the remaining buffer:
index arithmetic `i += ...` becomes `List.drop`.  Every step consumes at least
one byte, so structural recursion on a fuel bound of `data.length` computes
the loop exactly (see `parseLoopGo_irrel` / `parse_loop_cons`). -/
def parseLoopGo : Nat → List Nat → List Char
  | 0, _ => []
  | _ + 1, [] => []
  | fuel + 1, b :: rest =>
    if b = 0 then []
    else if b = PREFIX_BYTE then
      match rest with
      | [] => []
      | command :: rest2 =>
        if command = 0 then rawDesc ((dictGet CONTROL_CODES 0).getD [])
        else if 0 < argCount command then
          if (rest2.take (argCount command)).length < argCount command then
            malformedCode command ++
              parseLoopGo fuel (rest2.drop (rest2.take (argCount command)).length)
          else
            fmtDesc ((dictGet CONTROL_CODES command).getD (genericCode command))
                (controlArgsTuple command (argCount command)
                  (rest2.take (argCount command))) ++
              parseLoopGo fuel (rest2.drop (argCount command))
        else
          rawDesc ((dictGet CONTROL_CODES command).getD (genericCode command)) ++
            parseLoopGo fuel rest2
    else
      ((dictGet CHARACTER_MAP b).getD (cstr "[?" ++ hexPad 2 b ++ cstr "]")) ++
        parseLoopGo fuel rest

def parse_loop (data : List Nat) : List Char := parseLoopGo data.length data

theorem parseLoopGo_nil (f : Nat) : parseLoopGo f [] = [] := by cases f <;> rfl

theorem parseLoopGo_irrel : ∀ (f1 f2 : Nat) (data : List Nat),
    data.length ≤ f1 → data.length ≤ f2 → parseLoopGo f1 data = parseLoopGo f2 data := by
  intro f1
  induction f1 with
  | zero =>
    intro f2 data h1 _
    have hs : data = [] := by cases data <;> simp_all
    subst hs
    cases f2 <;> rfl
  | succ f ih =>
    intro f2 data h1 h2
    match f2, data with
    | f2, [] => cases f2 <;> rfl
    | 0, b :: rest => simp at h2
    | f2 + 1, b :: rest =>
      simp only [parseLoopGo]
      split
      · rfl
      · split
        · split
          · rfl
          · rename_i command rest2
            split
            · rfl
            · split
              · split
                · rw [ih f2 (rest2.drop _) (by simp at h1 ⊢; omega)
                    (by simp at h2 ⊢; omega)]
                · rw [ih f2 (rest2.drop _) (by simp at h1 ⊢; omega)
                    (by simp at h2 ⊢; omega)]
              · rw [ih f2 rest2 (by simp at h1; omega) (by simp at h2; omega)]
        · rw [ih f2 rest (by simp at h1; omega) (by simp at h2; omega)]

/-- Decode step: the terminator byte stops the scan. -/
theorem parse_loop_zero (rest : List Nat) : parse_loop (0 :: rest) = [] := rfl

/-- Decode step: a plain byte renders its glyph (or the hex placeholder). -/
theorem parse_loop_glyph (b : Nat) (rest : List Nat) (hb0 : b ≠ 0)
    (hbp : b ≠ PREFIX_BYTE) :
    parse_loop (b :: rest) =
      ((dictGet CHARACTER_MAP b).getD (cstr "[?" ++ hexPad 2 b ++ cstr "]")) ++
        parse_loop rest := by
  show parseLoopGo (rest.length + 1) (b :: rest) = _
  simp only [parseLoopGo, hb0, hbp, if_neg, not_false_iff]
  rfl

/-- Decode step: a bare trailing prefix byte ends the scan quietly. -/
theorem parse_loop_prefix_nil : parse_loop [PREFIX_BYTE] = [] := rfl

/-- Decode step: opcode `0x00` appends `<End Conversation>` and stops. -/
theorem parse_loop_cmd0 (rest : List Nat) :
    parse_loop (PREFIX_BYTE :: 0 :: rest) =
      rawDesc ((dictGet CONTROL_CODES 0).getD []) := rfl

/-- Decode step: too few argument bytes emit the malformed marker and skip
exactly the bytes present (which reach the end of the buffer). -/
theorem parse_loop_malformed (command : Nat) (rest : List Nat) (hc : command ≠ 0)
    (hn : 0 < argCount command) (hlen : rest.length < argCount command) :
    parse_loop (PREFIX_BYTE :: command :: rest) = malformedCode command := by
  show parseLoopGo (rest.length + 1 + 1) (PREFIX_BYTE :: command :: rest) = _
  simp only [parseLoopGo, hc, hn, if_pos, if_neg, not_false_iff]
  have hmin : argCount command ⊓ rest.length = rest.length := by omega
  simp [hlen, hmin, List.drop_length, parseLoopGo_nil, PREFIX_BYTE]

/-- Decode step: a recognized or unknown opcode with `0 < num_args` and enough
bytes formats its tag and continues after the argument bytes. -/
theorem parse_loop_control (command : Nat) (rest : List Nat) (hc : command ≠ 0)
    (hn : 0 < argCount command) (hlen : argCount command ≤ rest.length) :
    parse_loop (PREFIX_BYTE :: command :: rest) =
      fmtDesc ((dictGet CONTROL_CODES command).getD (genericCode command))
          (controlArgsTuple command (argCount command) (rest.take (argCount command))) ++
        parse_loop (rest.drop (argCount command)) := by
  show parseLoopGo (rest.length + 1 + 1) (PREFIX_BYTE :: command :: rest) = _
  simp only [parseLoopGo, hc, hn, if_pos, if_neg, not_false_iff]
  have ht : ¬ (rest.take (argCount command)).length < argCount command := by
    simp only [List.length_take]
    omega
  simp only [PREFIX_BYTE, ht, if_neg, not_false_iff, if_pos, reduceIte]
  rw [parseLoopGo_irrel (rest.length + 1) (rest.drop (argCount command)).length _
    (by simp only [List.length_drop]; omega) le_rfl]
  rfl

/-- Decode step: an opcode with no declared arguments appends its template
verbatim and continues. -/
theorem parse_loop_noargs (command : Nat) (rest : List Nat) (hc : command ≠ 0)
    (hn : argCount command = 0) :
    parse_loop (PREFIX_BYTE :: command :: rest) =
      rawDesc ((dictGet CONTROL_CODES command).getD (genericCode command)) ++
        parse_loop rest := by
  show parseLoopGo (rest.length + 1 + 1) (PREFIX_BYTE :: command :: rest) = _
  simp only [parseLoopGo, hc, hn, if_neg, not_false_iff]
  simp only [PREFIX_BYTE, lt_irrefl, if_neg, not_false_iff, reduceIte]
  rw [parseLoopGo_irrel (rest.length + 1) rest.length rest (by omega) le_rfl]
  rfl

/-- `parse_ac_text(data)`. -/
def parse_ac_text (data : List Nat) : List Char := parse_loop data

/-! ### `_normalize_control_tags`

Each `re.sub` pass is modelled by a scanner (`scanWith m`) that walks the text
and, at each position, either applies a matcher for that pass's pattern
(consuming the match and emitting the replacement, then continuing after it —
exactly `re.sub`'s non-overlapping left-to-right behaviour) or copies one
character.  The matchers use maximal-munch for the greedy pieces; this agrees
with the regex engine for these patterns because every bounded class
(`\s+`, hex runs) is followed by a piece that can never consume a character of
that class, so regex backtracking can never turn a longer take into a match. -/

/-- A matcher: on success, the suffix after the match and the replacement. -/
abbrev Matcher := List Char → Option (List Char × List Char)

def scanWithGo (m : Matcher) : Nat → List Char → List Char
  | 0, _ => []
  | _ + 1, [] => []
  | fuel + 1, c :: s =>
    match m (c :: s) with
    | some (rest, rep) =>
      if rest.length < s.length + 1 then rep ++ scanWithGo m fuel rest
      else c :: scanWithGo m fuel s
    | none => c :: scanWithGo m fuel s

def scanWith (m : Matcher) (s : List Char) : List Char := scanWithGo m s.length s

theorem scanWithGo_irrel (m : Matcher) : ∀ (f1 f2 : Nat) (s : List Char),
    s.length ≤ f1 → s.length ≤ f2 → scanWithGo m f1 s = scanWithGo m f2 s := by
  intro f1
  induction f1 with
  | zero =>
    intro f2 s h1 _
    have hs : s = [] := by cases s <;> simp_all
    subst hs
    cases f2 <;> rfl
  | succ f ih =>
    intro f2 s h1 h2
    match f2, s with
    | f2, [] => cases f2 <;> rfl
    | 0, c :: s => simp at h2
    | f2 + 1, c :: s =>
      simp only [scanWithGo]
      cases hm : m (c :: s) with
      | none =>
        rw [ih f2 s (by simp at h1; omega) (by simp at h2; omega)]
      | some pr =>
        obtain ⟨rest, rep⟩ := pr
        by_cases hlt : rest.length < s.length + 1
        · simp only [hlt, if_pos]
          rw [ih f2 rest (by simp at h1; omega) (by simp at h2; omega)]
        · simp only [hlt, if_neg, not_false_iff]
          rw [ih f2 s (by simp at h1; omega) (by simp at h2; omega)]

theorem scanWith_cons (m : Matcher) (c : Char) (s : List Char) :
    scanWith m (c :: s) =
      match m (c :: s) with
      | some (rest, rep) =>
        if rest.length < s.length + 1 then rep ++ scanWith m rest
        else c :: scanWith m s
      | none => c :: scanWith m s := by
  show scanWithGo m (s.length + 1) (c :: s) = _
  simp only [scanWithGo]
  cases hm : m (c :: s) with
  | none => rfl
  | some pr =>
    obtain ⟨rest, rep⟩ := pr
    by_cases hlt : rest.length < s.length + 1
    · simp only [hlt, if_pos]
      rw [scanWithGo_irrel m s.length rest.length rest (by omega) le_rfl]
      rfl
    · simp only [hlt, if_neg, not_false_iff]
      rfl

/-- If a matcher can only start a match at `'<'`, the scanner copies every
other character. -/
theorem scanWith_skip (m : Matcher) (c : Char) (s : List Char)
    (h : m (c :: s) = none) :
    scanWith m (c :: s) = c :: scanWith m s := by
  rw [scanWith_cons, h]

def eatLit (lit s : List Char) : Option (List Char) :=
  if listPrefixOf lit s then some (s.drop lit.length) else none

def eatChar (c : Char) (s : List Char) : Option (List Char) :=
  match s with
  | c2 :: rest => if c2 = c then some rest else none
  | [] => none

/-- `\s+` (greedy). -/
def eatSpaces1 (s : List Char) : Option (List Char) :=
  match s with
  | c :: rest => if pyIsSpace c then some (rest.dropWhile pyIsSpace) else none
  | [] => none

/-- `x?` for a single character. -/
def eatOptChar (c : Char) (s : List Char) : List Char :=
  match s with
  | c2 :: rest => if c2 = c then rest else s
  | [] => s

/-- `(?:lit)?`. -/
def eatOptLit (lit s : List Char) : List Char :=
  if listPrefixOf lit s then s.drop lit.length else s

/-- Greedy run of at most `maxN` hex digits. -/
def eatHexRun : Nat → List Char → (List Char × List Char)
  | 0, s => ([], s)
  | _ + 1, [] => ([], [])
  | n + 1, c :: rest =>
    if isHexDigitChar c then
      let p := eatHexRun n rest
      (c :: p.1, p.2)
    else ([], c :: rest)

/-- `[0-9A-Fa-f]{n}` exactly. -/
def eatHexExact (n : Nat) (s : List Char) : Option (List Char × List Char) :=
  let p := eatHexRun n s
  if p.1.length = n then some p else none

def toUpperL (s : List Char) : List Char := s.map Char.toUpper

/-- `str.zfill(w)`. -/
def zfillL (w : Nat) (s : List Char) : List Char :=
  List.replicate (w - s.length) '0' ++ s

/-- `re.sub(r"</[^>]+>", "", text)`. -/
def mCloseTag : Matcher := fun s => do
  let r ← eatLit (cstr "</") s
  let body := r.takeWhile (fun c => c ≠ '>')
  if 1 ≤ body.length ∧ (r.drop body.length).head? = some '>' then
    some (r.drop (body.length + 1), [])
  else none

def mNPC : Matcher := fun s => do
  let r ← eatLit (cstr "<NPC") s
  let r ← eatSpaces1 r
  let r ← eatLit (cstr "Expression") r
  let r ← eatSpaces1 r
  let r := eatOptChar '[' r
  let r := eatOptLit (cstr "Cat:") r
  let p1 := eatHexRun 2 r
  if p1.1 = [] then none else do
  let r := eatOptChar ']' p1.2
  let r ← eatSpaces1 r
  let r := eatOptChar '[' r
  let p2 := eatHexRun 4 r
  if p2.1 = [] then none else do
  let r := eatOptChar ']' p2.2
  let r ← eatChar '>' r
  some (r, cstr "<NPC Expression [" ++ zfillL 2 (toUpperL p1.1) ++ cstr "] [" ++
    zfillL 4 (toUpperL p2.1) ++ cstr "]>")

def mPlayer : Matcher := fun s => do
  let r ← eatLit (cstr "<Player") s
  let r ← eatSpaces1 r
  let r ← eatLit (cstr "Emotion") r
  let r ← eatSpaces1 r
  let r := eatOptChar '[' r
  let p1 := eatHexRun 2 r
  if p1.1 = [] then none else do
  let r := eatOptChar ']' p1.2
  let r ← eatSpaces1 r
  let r := eatOptChar '[' r
  let p2 := eatHexRun 4 r
  if p2.1 = [] then none else do
  let r := eatOptChar ']' p2.2
  let r ← eatChar '>' r
  some (r, cstr "<Player Emotion [" ++ zfillL 2 (toUpperL p1.1) ++ cstr "] [" ++
    zfillL 4 (toUpperL p2.1) ++ cstr "]>")

/-- Scanner for `<(Name)\s+([0-9A-Fa-f]{1,w})>` rewritten to
`<Name [GG..]>` (upper-cased, zero-filled): used for Pause, Line Type,
Play Sound Effect, Char Size and Line Size. -/
def mKeyHex (name : List Char) (w : Nat) : Matcher := fun s => do
  let r ← eatLit ('<' :: name) s
  let r ← eatSpaces1 r
  let p := eatHexRun w r
  if p.1 = [] then none else do
  let r ← eatChar '>' p.2
  some (r, '<' :: name ++ cstr " [" ++ zfillL w (toUpperL p.1) ++ cstr "]>")

def colorForRep (g1 g2 : List Char) : List Char :=
  cstr "<Color [" ++ toUpperL g1 ++ cstr "] for [" ++ zfillL 2 (toUpperL g2) ++
    cstr "] chars>"

def mColorFor1 : Matcher := fun s => do
  let r ← eatLit (cstr "<Color") s
  let r ← eatSpaces1 r
  let r := eatOptChar '[' r
  let p1 ← eatHexExact 6 r
  let r := eatOptChar ']' p1.2
  let r ← eatSpaces1 r
  let r ← eatLit (cstr "for") r
  let r ← eatSpaces1 r
  let r := eatOptChar '[' r
  let p2 := eatHexRun 2 r
  if p2.1 = [] then none else do
  let r := eatOptChar ']' p2.2
  let r ← eatChar '>' r
  some (r, colorForRep p1.1 p2.1)

def mColorFor2 : Matcher := fun s => do
  let r ← eatLit (cstr "<Color") s
  let r ← eatSpaces1 r
  let r := eatOptChar '[' r
  let p1 ← eatHexExact 6 r
  let r := eatOptChar ']' p1.2
  let r ← eatSpaces1 r
  let r ← eatLit (cstr "for") r
  let r ← eatSpaces1 r
  let r := eatOptChar '[' r
  let p2 := eatHexRun 2 r
  if p2.1 = [] then none else do
  let r := eatOptChar ']' p2.2
  let r ← eatSpaces1 r
  let r ← eatLit (cstr "char") r
  let r := eatOptChar 's' r
  let r ← eatChar '>' r
  some (r, colorForRep p1.1 p2.1)

def mColorLine1 : Matcher := fun s => do
  let r ← eatLit (cstr "<Color") s
  let r ← eatSpaces1 r
  let r ← eatLit (cstr "Line") r
  let r ← eatSpaces1 r
  let r := eatOptChar '[' r
  let p ← eatHexExact 6 r
  let r := eatOptChar ']' p.2
  let r ← eatChar '>' r
  some (r, cstr "<Color Line [" ++ toUpperL p.1 ++ cstr "]>")

def mColorBare : Matcher := fun s => do
  let r ← eatLit (cstr "<Color") s
  let r ← eatSpaces1 r
  let p ← eatHexExact 6 r
  let r ← eatChar '>' p.2
  some (r, cstr "<Color Line [" ++ toUpperL p.1 ++ cstr "]>")

def mColorBracket : Matcher := fun s => do
  let r ← eatLit (cstr "<Color") s
  let r ← eatSpaces1 r
  let r ← eatChar '[' r
  let p ← eatHexExact 6 r
  let r ← eatChar ']' p.2
  let r ← eatChar '>' r
  some (r, cstr "<Color Line [" ++ toUpperL p.1 ++ cstr "]>")

/-- `_normalize_control_tags`, in the source's pass order. -/
def normalize_control_tags (s : List Char) : List Char :=
  scanWith mColorBracket
    (scanWith mColorBare
      (scanWith mColorLine1
        (scanWith mColorFor2
          (scanWith mColorFor1
            (scanWith (mKeyHex (cstr "Line Size") 4)
              (scanWith (mKeyHex (cstr "Char Size") 4)
                (scanWith (mKeyHex (cstr "Play Sound Effect") 2)
                  (scanWith (mKeyHex (cstr "Line Type") 2)
                    (scanWith (mKeyHex (cstr "Pause") 2)
                      (scanWith mPlayer
                        (scanWith mNPC
                          (scanWith mCloseTag s))))))))))))

/-! ### `_normalize_visible_text` and `_sanitize_for_charset` -/

/-- Python `str.replace` (all occurrences, left to right, non-overlapping). -/
def pyReplaceGo (pat rep : List Char) : Nat → List Char → List Char
  | 0, _ => []
  | _ + 1, [] => []
  | fuel + 1, c :: s =>
    if pat ≠ [] ∧ listPrefixOf pat (c :: s) then
      rep ++ pyReplaceGo pat rep fuel ((c :: s).drop pat.length)
    else c :: pyReplaceGo pat rep fuel s

def pyReplace (pat rep s : List Char) : List Char := pyReplaceGo pat rep s.length s

theorem pyReplaceGo_irrel (pat rep : List Char) : ∀ (f1 f2 : Nat) (s : List Char),
    s.length ≤ f1 → s.length ≤ f2 → pyReplaceGo pat rep f1 s = pyReplaceGo pat rep f2 s := by
  intro f1
  induction f1 with
  | zero =>
    intro f2 s h1 _
    have hs : s = [] := by cases s <;> simp_all
    subst hs
    cases f2 <;> rfl
  | succ f ih =>
    intro f2 s h1 h2
    match f2, s with
    | f2, [] => cases f2 <;> rfl
    | 0, c :: s => simp at h2
    | f2 + 1, c :: s =>
      simp only [pyReplaceGo]
      split
      · next hp =>
        have hpl : 1 ≤ pat.length := by
          cases hpat : pat
          · exact absurd hpat hp.1
          · simp
        have hlen : ((c :: s).drop pat.length).length ≤ f ∧
            ((c :: s).drop pat.length).length ≤ f2 := by
          simp only [List.length_drop, List.length_cons] at *
          constructor <;> omega
        rw [ih f2 _ hlen.1 hlen.2]
      · rw [ih f2 s (by simp at h1; omega) (by simp at h2; omega)]

theorem pyReplace_cons (pat rep : List Char) (c : Char) (s : List Char) :
    pyReplace pat rep (c :: s) =
      if pat ≠ [] ∧ listPrefixOf pat (c :: s) then
        rep ++ pyReplace pat rep ((c :: s).drop pat.length)
      else c :: pyReplace pat rep s := by
  show pyReplaceGo pat rep (s.length + 1) (c :: s) = _
  simp only [pyReplaceGo]
  split
  · next hp =>
    have h1 : ((c :: s).drop pat.length).length ≤ s.length := by
      have : 1 ≤ pat.length := by
        cases hpat : pat
        · exact absurd hpat hp.1
        · simp
      simp only [List.length_drop, List.length_cons]
      omega
    rw [pyReplaceGo_irrel pat rep s.length _ _ h1 le_rfl]
    rfl
  · rfl

def normalize_visible_text (s : List Char) : List Char :=
  pyReplace [Char.ofNat 160] (cstr " ")
    (pyReplace (cstr "…") (cstr "...")
      (pyReplace (cstr "–") (cstr "-")
        (pyReplace (cstr "—") (cstr "-")
          (pyReplace (cstr "”") [Char.ofNat 34]
            (pyReplace (cstr "“") [Char.ofNat 34]
              (pyReplace (cstr "‘") [Char.ofNat 39]
                (pyReplace (cstr "’") [Char.ofNat 39] s)))))))

def sanitize_for_charset : List Char → List Char
  | [] => []
  | c :: s =>
    if c = '\n' ∨ (revCharGet c).isSome then c :: sanitize_for_charset s
    else if 32 ≤ c.toNat ∧ c.toNat < 127 then c :: sanitize_for_charset s
    else sanitize_for_charset s

/-! ### `encode_ac_text` -/

/-- Index of the first `']'` in `s`, if any (the closing bracket a lazy
`\[.*?\]` / `\[[^\]]*?...\]` group must stop at). -/
def closeBracketIdx : List Char → Option Nat
  | [] => none
  | c :: s =>
    if c = ']' then some 0
    else (closeBracketIdx s).map (fun n => n + 1)

/-- `re.sub(r'\[.*?\]', '[<blank>]', token)`: every bracket group whose content
has a closing `']'` with no intervening newline (`.` does not match `\n`) is
replaced by an empty bracket pair.  Both the control-code templates and the
incoming tokens are blanked with this same function, so comparing the results
is equivalent to comparing Python's `'[{}]'`-keyed strings. -/
def blankArgsGo : Nat → List Char → List Char
  | 0, _ => []
  | _ + 1, [] => []
  | fuel + 1, c :: s =>
    if c = '[' then
      match closeBracketIdx s with
      | some k =>
        if (s.take k).all (fun c2 => c2 ≠ '\n') then
          '[' :: ']' :: blankArgsGo fuel (s.drop (k + 1))
        else c :: blankArgsGo fuel s
      | none => c :: blankArgsGo fuel s
    else c :: blankArgsGo fuel s

def blankArgs (s : List Char) : List Char := blankArgsGo s.length s

theorem blankArgsGo_irrel : ∀ (f1 f2 : Nat) (s : List Char),
    s.length ≤ f1 → s.length ≤ f2 → blankArgsGo f1 s = blankArgsGo f2 s := by
  intro f1
  induction f1 with
  | zero =>
    intro f2 s h1 _
    have hs : s = [] := by cases s <;> simp_all
    subst hs
    cases f2 <;> rfl
  | succ f ih =>
    intro f2 s h1 h2
    match f2, s with
    | f2, [] => cases f2 <;> rfl
    | 0, c :: s => simp at h2
    | f2 + 1, c :: s =>
      simp only [blankArgsGo]
      split
      · split
        · split
          · rw [ih f2 (s.drop _) (by simp at h1 ⊢; omega) (by simp at h2 ⊢; omega)]
          · rw [ih f2 s (by simp at h1; omega) (by simp at h2; omega)]
        · rw [ih f2 s (by simp at h1; omega) (by simp at h2; omega)]
      · rw [ih f2 s (by simp at h1; omega) (by simp at h2; omega)]

theorem blankArgs_cons (c : Char) (s : List Char) :
    blankArgs (c :: s) =
      if c = '[' then
        match closeBracketIdx s with
        | some k =>
          if (s.take k).all (fun c2 => c2 ≠ '\n') then
            '[' :: ']' :: blankArgs (s.drop (k + 1))
          else c :: blankArgs s
        | none => c :: blankArgs s
      else c :: blankArgs s := by
  show blankArgsGo (s.length + 1) (c :: s) = _
  simp only [blankArgsGo]
  split
  · split
    · split
      · rw [blankArgsGo_irrel s.length (s.drop _).length _
          (by simp only [List.length_drop]; omega) le_rfl]
        rfl
      · rfl
    · rfl
  · rfl

/-- Template string with the format slots rendered empty; since every slot sits
inside a bracket group, blanking this gives the same key as blanking the
Python template text. -/
def renderEmpty : Template → List Char
  | [] => []
  | .lit s :: rest => s ++ renderEmpty rest
  | .ahex _ :: rest => renderEmpty rest
  | .astr :: rest => renderEmpty rest

/-- `REVERSE_CONTROL_CODES`: blanked template → opcode, plus the two explicit
updates from the source (which re-bind the NPC Expression / Player Emotion
keys). -/
def REVERSE_CONTROL_CODES : List (List Char × Nat) :=
  CONTROL_CODES.map (fun p => (blankArgs (renderEmpty p.2), p.1)) ++
    [(blankArgs (renderEmpty ((dictGet CONTROL_CODES 0x09).getD [])), 0x09),
     (blankArgs (renderEmpty ((dictGet CONTROL_CODES 0x08).getD [])), 0x08)]

/-- The trailing run of hex digits of a bracket group's content. -/
def trailingHexRun (content : List Char) : List Char :=
  (content.reverse.takeWhile isHexDigitChar).reverse

/-- `re.findall(r'\[[^\]]*?([0-9a-fA-F]{1,6})\]', token)` followed by
`int(_, 16)`: at each `'['`, the group content runs to the first `']'`; the
lazy prefix makes the captured group the longest (≤ 6) trailing hex run of the
content; with no trailing hex digit there is no match at this `'['` and the
scan resumes at the next character. -/
def extractArgsGo : Nat → List Char → List Nat
  | 0, _ => []
  | _ + 1, [] => []
  | fuel + 1, c :: s =>
    if c = '[' then
      match closeBracketIdx s with
      | some k =>
        let run := trailingHexRun (s.take k)
        if run = [] then extractArgsGo fuel s
        else
          let grp := if run.length > 6 then run.drop (run.length - 6) else run
          hexValue grp :: extractArgsGo fuel (s.drop (k + 1))
      | none => extractArgsGo fuel s
    else extractArgsGo fuel s

def extractArgs (s : List Char) : List Nat := extractArgsGo s.length s

theorem extractArgsGo_irrel : ∀ (f1 f2 : Nat) (s : List Char),
    s.length ≤ f1 → s.length ≤ f2 → extractArgsGo f1 s = extractArgsGo f2 s := by
  intro f1
  induction f1 with
  | zero =>
    intro f2 s h1 _
    have hs : s = [] := by cases s <;> simp_all
    subst hs
    cases f2 <;> rfl
  | succ f ih =>
    intro f2 s h1 h2
    match f2, s with
    | f2, [] => cases f2 <;> rfl
    | 0, c :: s => simp at h2
    | f2 + 1, c :: s =>
      simp only [extractArgsGo]
      split
      · split
        · split
          · rw [ih f2 s (by simp at h1; omega) (by simp at h2; omega)]
          · rw [ih f2 (s.drop _) (by simp at h1 ⊢; omega) (by simp at h2 ⊢; omega)]
        · rw [ih f2 s (by simp at h1; omega) (by simp at h2; omega)]
      · rw [ih f2 s (by simp at h1; omega) (by simp at h2; omega)]

theorem extractArgs_cons (c : Char) (s : List Char) :
    extractArgs (c :: s) =
      if c = '[' then
        match closeBracketIdx s with
        | some k =>
          let run := trailingHexRun (s.take k)
          if run = [] then extractArgs s
          else
            let grp := if run.length > 6 then run.drop (run.length - 6) else run
            hexValue grp :: extractArgs (s.drop (k + 1))
        | none => extractArgs s
      else extractArgs s := by
  show extractArgsGo (s.length + 1) (c :: s) = _
  simp only [extractArgsGo]
  split
  · split
    · split
      · rfl
      · rw [extractArgsGo_irrel s.length (s.drop _).length _
          (by simp only [List.length_drop]; omega) le_rfl]
        rfl
    · rfl
  · rfl

/-- Python exceptions that can escape `encode_ac_text`. -/
inductive EncErr : Type
  | indexError
  | structError
  | overflowError
deriving DecidableEq

/-- `struct.pack('>B', v)`. -/
def packB (v : Nat) : Except EncErr (List Nat) :=
  if v < 256 then .ok [v] else .error .structError

/-- `struct.pack('>H', v)`. -/
def packH (v : Nat) : Except EncErr (List Nat) :=
  if v < 65536 then .ok [v / 256, v % 256] else .error .structError

/-- `v.to_bytes(3, 'big')`. -/
def pack3 (v : Nat) : Except EncErr (List Nat) :=
  if v < 16777216 then .ok [v / 65536, v / 256 % 256, v % 256]
  else .error .overflowError

/-- `args[i]` (raises `IndexError` when out of range). -/
def nthArg (args : List Nat) (i : Nat) : Except EncErr Nat :=
  match args.get? i with
  | some v => .ok v
  | none => .error .indexError

def packAllH : List Nat → Except EncErr (List Nat)
  | [] => .ok []
  | a :: rest => do
    let h ← packH a
    let r ← packAllH rest
    .ok (h ++ r)

/-- The `arg_bytes` assembly of `encode_ac_text` for a recognized command with
`num_args_expected > 0`. -/
def packArgs (cmd nargs : Nat) (args : List Nat) : Except EncErr (List Nat) :=
  if nargs = 1 then do packB (← nthArg args 0)
  else if nargs = 2 then do packH (← nthArg args 0)
  else if nargs = 3 ∧ cmd = 0x05 then do pack3 (← nthArg args 0)
  else if nargs = 3 ∧ (cmd = 0x08 ∨ cmd = 0x09) then do
    let b ← packB (← nthArg args 0)
    let h ← packH (← nthArg args 1)
    .ok (b ++ h)
  else if nargs = 4 ∧ cmd = 0x50 then do
    let x ← pack3 (← nthArg args 0)
    let b ← packB (← nthArg args 1)
    .ok (x ++ b)
  else packAllH args

/-- Index of the first `'>'` in `s` when it closes a `<[^>]+>` match (at least
one non-`'>'` character before it). -/
def tagSpan (s : List Char) : Option Nat :=
  let body := s.takeWhile (fun c => c ≠ '>')
  if 1 ≤ body.length ∧ (s.drop body.length).head? = some '>' then
    some body.length
  else none

/-- `re.split(r'(<[^>]+>)', text)`: pieces in order, literals (possibly empty)
alternating with tag matches. -/
def splitTagsGo : Nat → List Char → List Char → List (List Char)
  | 0, _, acc => [acc.reverse]
  | _ + 1, [], acc => [acc.reverse]
  | fuel + 1, c :: rest, acc =>
    if c = '<' then
      match tagSpan rest with
      | some k =>
        acc.reverse :: ('<' :: (rest.take k ++ ['>'])) ::
          splitTagsGo fuel (rest.drop (k + 1)) []
      | none => splitTagsGo fuel rest (c :: acc)
    else splitTagsGo fuel rest (c :: acc)

def splitTags (s : List Char) : List (List Char) := splitTagsGo s.length s []

theorem splitTagsGo_irrel : ∀ (f1 f2 : Nat) (s acc : List Char),
    s.length ≤ f1 → s.length ≤ f2 → splitTagsGo f1 s acc = splitTagsGo f2 s acc := by
  intro f1
  induction f1 with
  | zero =>
    intro f2 s acc h1 _
    have hs : s = [] := by cases s <;> simp_all
    subst hs
    cases f2 <;> rfl
  | succ f ih =>
    intro f2 s acc h1 h2
    match f2, s with
    | f2, [] => cases f2 <;> rfl
    | 0, c :: rest => simp at h2
    | f2 + 1, c :: rest =>
      simp only [splitTagsGo]
      split
      · split
        · rw [ih f2 (rest.drop _) [] (by simp at h1 ⊢; omega) (by simp at h2 ⊢; omega)]
        · rw [ih f2 rest (c :: acc) (by simp at h1; omega) (by simp at h2; omega)]
      · rw [ih f2 rest (c :: acc) (by simp at h1; omega) (by simp at h2; omega)]

theorem splitTagsGo_cons (c : Char) (rest acc : List Char) :
    splitTagsGo (rest.length + 1) (c :: rest) acc =
      if c = '<' then
        match tagSpan rest with
        | some k =>
          acc.reverse :: ('<' :: (rest.take k ++ ['>'])) ::
            splitTagsGo (rest.drop (k + 1)).length (rest.drop (k + 1)) []
        | none => splitTagsGo rest.length rest (c :: acc)
      else splitTagsGo rest.length rest (c :: acc) := by
  simp only [splitTagsGo]
  split
  · split
    · rw [splitTagsGo_irrel rest.length (rest.drop _).length _ []
        (by simp only [List.length_drop]; omega) le_rfl]
    · rfl
  · rfl

/-- `token.split(' ')` (single-space separator, keeping empty words). -/
def pySplitSpace (s : List Char) (acc : List Char) : List (List Char) :=
  match s with
  | [] => [acc.reverse]
  | c :: rest =>
    if c = ' ' then acc.reverse :: pySplitSpace rest []
    else pySplitSpace rest (c :: acc)

/-- Encoder state: the byte buffer built so far and `char_count`, the running
visible-column counter. -/
structure EncSt : Type where
  out : List Nat
  cnt : Nat
deriving DecidableEq

/-- The `for char in word` loop. -/
def processChars (out : List Nat) (cnt : Nat) : List Char → EncSt
  | [] => ⟨out, cnt⟩
  | c :: cs =>
    match revCharGet c with
    | some b => processChars (out ++ [b]) (if c = '\n' then 0 else cnt + 1) cs
    | none => processChars out cnt cs

/-- One iteration of the word loop: line-break decision, optional space, then
the word's characters. -/
def processWord (st : EncSt) (wordIdx : Nat) (w : List Char) : EncSt :=
  let spaceNeeded : Nat := if 0 < wordIdx ∧ 0 < st.cnt then 1 else 0
  let brk : Bool := 0 < st.cnt ∧ 30 < st.cnt + spaceNeeded + w.length
  let out := if brk then st.out ++ [0xCD] else st.out
  let cnt := if brk then 0 else st.cnt
  let spaceNeeded := if brk then 0 else spaceNeeded
  let out := if 0 < spaceNeeded then out ++ [0x20] else out
  let cnt := if 0 < spaceNeeded then cnt + 1 else cnt
  processChars out cnt w

def processWordsFrom (st : EncSt) (idx : Nat) : List (List Char) → EncSt
  | [] => st
  | w :: ws => processWordsFrom (processWord st idx w) (idx + 1) ws

/-- `for word_idx, word in enumerate(words)`. -/
def processWords (st : EncSt) (ws : List (List Char)) : EncSt :=
  processWordsFrom st 0 ws

/-- One iteration of the token loop of `encode_ac_text`. -/
def encodeToken (st : EncSt) (tok : List Char) : Except EncErr EncSt :=
  if tok = [] then .ok st
  else if tok.head? = some '<' ∧ tok.getLast? = some '>' then
    let args := extractArgs tok
    let baseTag := blankArgs tok
    match dictGetL REVERSE_CONTROL_CODES baseTag with
    | some cmd =>
      let nargs := argCount cmd
      if 0 < nargs then
        match packArgs cmd nargs args with
        | .ok ab => .ok ⟨st.out ++ [PREFIX_BYTE, cmd] ++ ab, st.cnt⟩
        | .error e => .error e
      else .ok ⟨st.out ++ [PREFIX_BYTE, cmd], st.cnt⟩
    | none => .ok st
  else .ok (processWords st (pySplitSpace tok []))

def encodeTokens : EncSt → List (List Char) → Except EncErr EncSt
  | st, [] => .ok st
  | st, tok :: toks =>
    match encodeToken st tok with
    | .ok st2 => encodeTokens st2 toks
    | .error e => .error e

/-- `encode_ac_text(text)`: normalize, sanitize, split into tokens, encode each
and terminate with `0x00`.  Errors are the Python exceptions that the source
lets escape from this function. -/
def encode_ac_text (text : List Char) : Except EncErr (List Nat) :=
  match encodeTokens ⟨[], 0⟩ (splitTags (sanitize_for_charset
      (normalize_visible_text (normalize_control_tags text)))) with
  | .ok st => .ok (st.out ++ [0x00])
  | .error e => .error e

/-! ### `ConversationState` -/

/-- `_strip_control_codes`: `_CONTROL_TAG_RE.sub("", text)` with the same
`<[^>]+>` matching as the tokenizer. -/
def stripControlGo : Nat → List Char → List Char
  | 0, _ => []
  | _ + 1, [] => []
  | fuel + 1, c :: rest =>
    if c = '<' then
      match tagSpan rest with
      | some k => stripControlGo fuel (rest.drop (k + 1))
      | none => c :: stripControlGo fuel rest
    else c :: stripControlGo fuel rest

def strip_control_codes (s : List Char) : List Char := stripControlGo s.length s

theorem stripControlGo_irrel : ∀ (f1 f2 : Nat) (s : List Char),
    s.length ≤ f1 → s.length ≤ f2 → stripControlGo f1 s = stripControlGo f2 s := by
  intro f1
  induction f1 with
  | zero =>
    intro f2 s h1 _
    have hs : s = [] := by cases s <;> simp_all
    subst hs
    cases f2 <;> rfl
  | succ f ih =>
    intro f2 s h1 h2
    match f2, s with
    | f2, [] => cases f2 <;> rfl
    | 0, c :: rest => simp at h2
    | f2 + 1, c :: rest =>
      simp only [stripControlGo]
      split
      · split
        · rw [ih f2 (rest.drop _) (by simp at h1 ⊢; omega) (by simp at h2 ⊢; omega)]
        · rw [ih f2 rest (by simp at h1; omega) (by simp at h2; omega)]
      · rw [ih f2 rest (by simp at h1; omega) (by simp at h2; omega)]

theorem strip_control_codes_cons (c : Char) (rest : List Char) :
    strip_control_codes (c :: rest) =
      if c = '<' then
        match tagSpan rest with
        | some k => strip_control_codes (rest.drop (k + 1))
        | none => c :: strip_control_codes rest
      else c :: strip_control_codes rest := by
  show stripControlGo (rest.length + 1) (c :: rest) = _
  simp only [stripControlGo]
  split
  · split
    · rw [stripControlGo_irrel rest.length (rest.drop _).length _
        (by simp only [List.length_drop]; omega) le_rfl]
      rfl
    · rfl
  · rfl

def endConvTag : List Char := cstr "<End Conversation>"

def openMenuTag : List Char := cstr "<Open Choice Menu>"

structure ConversationState : Type where
  lines_seen : Nat := 0
  last_visible_text : Option (List Char) := none
  ready_for_chatty : Bool := false
  menu_injected : Bool := false
  awaiting_choice_resolution : Bool := false
  chatty_requested : Bool := false
  menu_skip_logged : Bool := false
deriving DecidableEq

/-- `ConversationState.reset`. -/
def resetState (_ : ConversationState) : ConversationState := {}

/-- `ConversationState.observe_text`. -/
def observe_text (st : ConversationState) (text : List Char) : ConversationState :=
  if pyContains text endConvTag then resetState st
  else if st.awaiting_choice_resolution ∧ ¬ pyContains text openMenuTag then
    let st1 := { st with awaiting_choice_resolution := false, menu_injected := false,
                         menu_skip_logged := false }
    let vf := pyStrip (strip_control_codes text)
    if vf ≠ [] then
      let st2 := { st1 with chatty_requested := true }
      if some vf ≠ st2.last_visible_text then
        let st3 := { st2 with last_visible_text := some vf,
                              lines_seen := st2.lines_seen + 1 }
        if 2 ≤ st3.lines_seen then { st3 with ready_for_chatty := true } else st3
      else st2
    else st1
  else if pyContains text openMenuTag then
    if ¬ st.ready_for_chatty ∧ 1 ≤ st.lines_seen then
      { st with ready_for_chatty := true }
    else st
  else
    let visible := pyStrip (strip_control_codes text)
    if visible = [] then st
    else if some visible ≠ st.last_visible_text then
      let st1 := { st with last_visible_text := some visible,
                           lines_seen := st.lines_seen + 1 }
      let st2 := if 2 ≤ st1.lines_seen then { st1 with ready_for_chatty := true } else st1
      { st2 with menu_skip_logged := false }
    else st

/-! ### `_inject_feeling_chatty_option`

`_CHOICE_ONE_PATTERN = (<Open Choice Menu>)([\s\S]*?)(<Choice 1 Jump
\[[0-9A-F]{4}\]>)` with `re.IGNORECASE`, used with `search` + `sub(count=1)`:
the match starts at the leftmost position where the whole pattern can match,
and the lazy middle group makes the Choice-1 tag the earliest one after it. -/

def ciPrefixOf : List Char → List Char → Bool
  | [], _ => true
  | _ :: _, [] => false
  | p :: ps, c :: cs => p.toLower = c.toLower && ciPrefixOf ps cs

def choice1Pre : List Char := cstr "<Choice 1 Jump ["

/-- Does a `<Choice 1 Jump [hhhh]>` match start here (case-insensitively)?
The full match has length 22. -/
def choice1At (s : List Char) : Bool :=
  ciPrefixOf choice1Pre s ∧ ((s.drop 16).take 4).length = 4 ∧
    ((s.drop 16).take 4).all isHexDigitChar ∧ ciPrefixOf (cstr "]>") (s.drop 20)

def findChoice1 : List Char → Option Nat
  | [] => none
  | c :: rest =>
    if choice1At (c :: rest) then some 0
    else (findChoice1 rest).map (fun n => n + 1)

/-- Leftmost full-pattern match: `(i, j)` with the open-menu literal at index
`i` and the Choice-1 tag at index `j`. -/
def findInject : List Char → Option (Nat × Nat)
  | [] => none
  | c :: rest =>
    if ciPrefixOf openMenuTag (c :: rest) then
      match findChoice1 ((c :: rest).drop 18) with
      | some dj => some (0, 18 + dj)
      | none => (findInject rest).map (fun p => (p.1 + 1, p.2 + 1))
    else (findInject rest).map (fun p => (p.1 + 1, p.2 + 1))

def FEELING_CHATTY_LABEL : List Char := cstr "Feeling chatty"

/-- `_inject_feeling_chatty_option`: replace the matched region by
`group(1) + leading-ws(group(2)) + label + trailing-ws(group(2)) + group(3)`
(`re.match(r"^\s*", between)` / `re.search(r"\s*$", between)` are the leading
and trailing whitespace runs of the middle group). -/
def inject_feeling_chatty_option (text : List Char) : Option (List Char) :=
  match findInject text with
  | none => none
  | some (i, j) =>
    let pre := text.take i
    let g1 := (text.drop i).take 18
    let between := (text.drop (i + 18)).take (j - (i + 18))
    let g3 := (text.drop j).take 22
    let lead := between.takeWhile pyIsSpace
    let trail := (between.reverse.takeWhile pyIsSpace).reverse
    some (pre ++ g1 ++ lead ++ FEELING_CHATTY_LABEL ++ trail ++ g3 ++
      text.drop (j + 22))

/-! ### One iteration of the `watch_dialogue` per-address body

External effects are parameters: the decoded snapshot text, the observed state
of the global lock, the result of the injection write, and the outcome of the
generation call (`none` = the `try` block raised).  Time is an abstract `Nat`.
The only exception that can escape the body is the unguarded
`parse_ac_text(encode_ac_text(modified))` in the injection branch. -/

structure PollIn : Type where
  printAll : Bool
  text : List Char
  state : ConversationState
  lastText : Option (List Char)
  suppressUntil : Nat
  now : Nat
  inProgress : Bool
  lockFree : Bool
  injectWriteOk : Bool
  genResult : Option (List Char)
  suppressSeconds : Nat

structure PollOut : Type where
  state : ConversationState
  lastText : Option (List Char)
  suppressUntil : Nat
  didGenerate : Bool
  injected : Bool
deriving DecidableEq

/-- The `should_generate`/generation/trailing-update section (everything after
the injection `if`/`elif`), for a current state `st`. -/
def pollTail (inp : PollIn) (st : ConversationState) : PollOut :=
  let shouldGenerate := st.chatty_requested ∧ ¬ st.awaiting_choice_resolution
  if shouldGenerate ∧ ¬ inp.inProgress ∧ inp.lockFree then
    let stGen := { st with chatty_requested := false }
    match inp.genResult with
    | some combined =>
      match encode_ac_text combined with
      | .ok bs =>
        { state := { stGen with menu_injected := false,
                                awaiting_choice_resolution := false }
          lastText := some (parse_ac_text bs)
          suppressUntil := inp.now + inp.suppressSeconds
          didGenerate := true
          injected := false }
      | .error _ =>
        let stF := { stGen with menu_injected := false,
                                awaiting_choice_resolution := false }
        { state := if pyContains inp.text endConvTag then resetState stF
                   else if ¬ stF.awaiting_choice_resolution then
                     { stF with chatty_requested := false }
                   else stF
          lastText := some inp.text
          suppressUntil := inp.suppressUntil
          didGenerate := false
          injected := false }
    | none =>
      let stF := { stGen with menu_injected := false,
                              awaiting_choice_resolution := false }
      { state := if pyContains inp.text endConvTag then resetState stF
                 else if ¬ stF.awaiting_choice_resolution then
                   { stF with chatty_requested := false }
                 else stF
        lastText := some inp.text
        suppressUntil := inp.suppressUntil
        didGenerate := false
        injected := false }
  else
    { state := if pyContains inp.text endConvTag then resetState st
               else if ¬ st.awaiting_choice_resolution then
                 { st with chatty_requested := false }
               else st
      lastText := some inp.text
      suppressUntil := inp.suppressUntil
      didGenerate := false
      injected := false }

/-- The body of the `for addr in addresses` loop for one address, from the
`print_all or text != last` test through the trailing bookkeeping. -/
def pollStep (inp : PollIn) : Except EncErr PollOut :=
  if ¬ (inp.printAll ∨ some inp.text ≠ inp.lastText) then
    .ok ⟨inp.state, inp.lastText, inp.suppressUntil, false, false⟩
  else
    let st := observe_text inp.state inp.text
    if inp.now < inp.suppressUntil then
      if pyContains inp.text endConvTag then
        .ok ⟨resetState st, inp.lastText, 0, false, false⟩
      else
        .ok ⟨st, some inp.text, inp.suppressUntil, false, false⟩
    else if st.ready_for_chatty ∧ pyContains inp.text openMenuTag ∧
        ¬ st.menu_injected then
      match inject_feeling_chatty_option inp.text with
      | some modified =>
        if modified ≠ inp.text then
          match encode_ac_text modified with
          | .ok bs =>
            let predicted := parse_ac_text bs
            if inp.injectWriteOk then
              .ok ⟨{ st with menu_injected := true,
                             awaiting_choice_resolution := true },
                   some predicted, inp.suppressUntil, false, true⟩
            else .ok (pollTail inp st)
          | .error e => .error e
        else .ok (pollTail inp st)
      | none => .ok (pollTail inp st)
    else if pyContains inp.text openMenuTag ∧ ¬ st.menu_injected ∧
        ¬ st.ready_for_chatty ∧ ¬ st.menu_skip_logged then
      .ok (pollTail inp { st with menu_skip_logged := true })
    else .ok (pollTail inp st)

/-! ### The generation gate (`GLOBAL_GENERATION_LOCK` +
`generation_in_progress`)

A transition system over the generation-entry protocol: an address may request
generation only when its in-flight flag is clear and it has observed the lock
free (`not GLOBAL_GENERATION_LOCK.locked()`); the `with` block then blocks
until the lock is actually free, and the generation call runs while the lock
is held; the `finally` releases the flag with the lock. -/

inductive GenPhase : Type
  | idle
  | requested
  | generating
deriving DecidableEq

structure GenSys (n : Nat) : Type where
  lockHeld : Option (Fin n)
  inProgress : Fin n → Bool
  phase : Fin n → GenPhase

def GenSys.init (n : Nat) : GenSys n :=
  ⟨none, fun _ => false, fun _ => .idle⟩

inductive GenStep {n : Nat} : GenSys n → GenSys n → Prop
  | request (a : Fin n) (s : GenSys n) :
      s.phase a = .idle → s.inProgress a = false → s.lockHeld = none →
      GenStep s ⟨s.lockHeld, Function.update s.inProgress a true,
                 Function.update s.phase a .requested⟩
  | acquire (a : Fin n) (s : GenSys n) :
      s.phase a = .requested → s.lockHeld = none →
      GenStep s ⟨some a, s.inProgress, Function.update s.phase a .generating⟩
  | finish (a : Fin n) (s : GenSys n) :
      s.phase a = .generating →
      GenStep s ⟨none, Function.update s.inProgress a false,
                 Function.update s.phase a .idle⟩

def GenReachable {n : Nat} (s : GenSys n) : Prop :=
  Relation.ReflTransGen GenStep (GenSys.init n) s

/-! ## Theorems -/

set_option maxRecDepth 20000

/-! ### C2 — codec totality -/

set_option maxHeartbeats 2000000

def exceptIsOk {ε α : Type} : Except ε α → Bool
  | .ok _ => true
  | .error _ => false

/-- The success or failure of `encodeToken` does not depend on the encoder
state: only the tag branch can fail, and its `packArgs` call looks only at the
token. -/
theorem encodeToken_error_indep (st st2 : EncSt) (tok : List Char) (e : EncErr)
    (h : encodeToken st tok = .error e) : encodeToken st2 tok = .error e := by
  simp only [encodeToken] at h ⊢
  by_cases h1 : tok = []
  · simp [h1] at h
  · simp only [h1, if_neg, not_false_iff, reduceIte] at h ⊢
    by_cases h2 : tok.head? = some '<' ∧ tok.getLast? = some '>'
    · simp only [h2.1, h2.2, and_self, if_true, reduceIte] at h ⊢
      cases hd : dictGetL REVERSE_CONTROL_CODES (blankArgs tok) with
      | none => simp only [hd] at h; simp at h
      | some cmd =>
        simp only [hd] at h ⊢
        by_cases h3 : 0 < argCount cmd
        · simp only [h3, if_pos, reduceIte] at h ⊢
          cases hp : packArgs cmd (argCount cmd) (extractArgs tok) with
          | ok ab => simp only [hp] at h; simp at h
          | error e2 => simp only [hp] at h ⊢; simpa using h
        · simp [h3] at h
    · simp [h2] at h

/-- An `encodeToken` failure is an argument-packing failure of a recognized
tag. -/
theorem encodeToken_error_shape (st : EncSt) (tok : List Char) (e : EncErr)
    (h : encodeToken st tok = .error e) :
    ∃ cmd : Nat, dictGetL REVERSE_CONTROL_CODES (blankArgs tok) = some cmd ∧
      0 < argCount cmd ∧
      packArgs cmd (argCount cmd) (extractArgs tok) = .error e := by
  simp only [encodeToken] at h
  by_cases h1 : tok = []
  · simp [h1] at h
  · simp only [h1, if_neg, not_false_iff, reduceIte] at h
    by_cases h2 : tok.head? = some '<' ∧ tok.getLast? = some '>'
    · simp only [h2.1, h2.2, and_self, if_true, reduceIte] at h
      cases hd : dictGetL REVERSE_CONTROL_CODES (blankArgs tok) with
      | none => simp only [hd] at h; simp at h
      | some cmd =>
        simp only [hd] at h
        by_cases h3 : 0 < argCount cmd
        · simp only [h3, if_pos, reduceIte] at h
          cases hp : packArgs cmd (argCount cmd) (extractArgs tok) with
          | ok ab => simp only [hp] at h; simp at h
          | error e2 =>
            simp only [hp] at h
            cases h
            exact ⟨cmd, rfl, h3, hp⟩
        · simp [h3] at h
    · simp [h2] at h

theorem encodeTokens_ok (toks : List (List Char)) :
    ∀ st : EncSt, (∀ tok ∈ toks, exceptIsOk (encodeToken ⟨[], 0⟩ tok) = true) →
      ∃ st2, encodeTokens st toks = .ok st2 := by
  induction toks with
  | nil => exact fun st _ => ⟨st, rfl⟩
  | cons tok toks ih =>
    intro st h
    have h0 := h tok (List.mem_cons_self tok toks)
    have hok : ∃ r, encodeToken st tok = .ok r := by
      cases he : encodeToken st tok with
      | ok r => exact ⟨r, rfl⟩
      | error e =>
        have := encodeToken_error_indep st ⟨[], 0⟩ tok e he
        rw [this] at h0
        simp [exceptIsOk] at h0
    obtain ⟨r, hr⟩ := hok
    obtain ⟨st2, hst2⟩ := ih r (fun t ht => h t (List.mem_cons_of_mem tok ht))
    refine ⟨st2, ?_⟩
    simp only [encodeTokens, hr]
    exact hst2

theorem encodeTokens_error (toks : List (List Char)) :
    ∀ (st : EncSt) (e : EncErr), encodeTokens st toks = .error e →
      ∃ tok ∈ toks, encodeToken ⟨[], 0⟩ tok = .error e := by
  induction toks with
  | nil => intro st e h; simp [encodeTokens] at h
  | cons tok toks ih =>
    intro st e h
    cases he : encodeToken st tok with
    | ok r =>
      simp only [encodeTokens, he] at h
      obtain ⟨t, ht, hte⟩ := ih r e h
      exact ⟨t, List.mem_cons_of_mem tok ht, hte⟩
    | error e2 =>
      simp only [encodeTokens, he] at h
      cases h
      exact ⟨tok, List.mem_cons_self tok toks,
        encodeToken_error_indep st ⟨[], 0⟩ tok e he⟩

/-- C2 (counterexample): `encode_ac_text` *can* raise, in two ways — a
recognized tag with an empty argument bracket reaches `args[0]` on an empty
argument list (`IndexError`), and a recognized tag whose argument value is too
wide for the opcode's field makes `struct.pack` raise (`struct.error`: `0xFFF`
does not fit `>B` for `<Pause>`, `0xFFFFF` does not fit `>H` for `<Set Jump>`);
the source has no `try` around the token loop, so both escape. -/
theorem C2_codec_totality_counterexample :
    encode_ac_text (cstr "<Pause []>") = .error .indexError ∧
      encode_ac_text (cstr "<Pause [FFF]>") = .error .structError ∧
      encode_ac_text (cstr "<Set Jump [FFFFF]>") = .error .structError :=
  ⟨rfl, rfl, rfl⟩

/-- C2 (amended): `parse_ac_text` is a total function of the byte buffer (it
is embedded here as one, covering every malformed shape — see C3), and
`encode_ac_text` returns a byte string without raising *unless* some
recognized tag token fails argument packing (a missing bracket argument or a
value too wide for the opcode's field, `IndexError`/`struct.error`/
`OverflowError`); every escaping error is such a failure. -/
theorem C2_codec_totality_amended (text : List Char) :
    ((∀ tok ∈ splitTags (sanitize_for_charset (normalize_visible_text
          (normalize_control_tags text))),
        exceptIsOk (encodeToken ⟨[], 0⟩ tok) = true) →
      ∃ bs, encode_ac_text text = .ok bs) ∧
    ∀ e : EncErr, encode_ac_text text = .error e →
      ∃ tok ∈ splitTags (sanitize_for_charset (normalize_visible_text
          (normalize_control_tags text))),
        ∃ cmd : Nat, dictGetL REVERSE_CONTROL_CODES (blankArgs tok) = some cmd ∧
          0 < argCount cmd ∧
          packArgs cmd (argCount cmd) (extractArgs tok) = .error e := by
  constructor
  · intro h
    obtain ⟨st2, hst2⟩ := encodeTokens_ok _ ⟨[], 0⟩ h
    refine ⟨st2.out ++ [0x00], ?_⟩
    unfold encode_ac_text
    rw [hst2]
  · intro e h
    have herr : encodeTokens ⟨[], 0⟩ (splitTags (sanitize_for_charset
        (normalize_visible_text (normalize_control_tags text)))) = .error e := by
      unfold encode_ac_text at h
      split at h
      · exact absurd h (by simp)
      · next e2 heq =>
        cases h
        exact heq
    obtain ⟨tok, htok, hte⟩ := encodeTokens_error _ ⟨[], 0⟩ e herr
    exact ⟨tok, htok, encodeToken_error_shape _ tok e hte⟩

/-- C2 (witness): conjunct 1 at a well-formed mixed text, conjunct 2 at an
arity-short raising text (`IndexError`) and at an over-wide one
(`struct.error`). -/
theorem C2_codec_totality_witness :
    (∃ bs, encode_ac_text (cstr "<Pause [0A]>Hi") = .ok bs) ∧
      (∃ tok ∈ splitTags (sanitize_for_charset (normalize_visible_text
          (normalize_control_tags (cstr "<Pause []>")))),
        ∃ cmd : Nat, dictGetL REVERSE_CONTROL_CODES (blankArgs tok) = some cmd ∧
          0 < argCount cmd ∧
          packArgs cmd (argCount cmd) (extractArgs tok) = .error .indexError) ∧
      ∃ tok ∈ splitTags (sanitize_for_charset (normalize_visible_text
          (normalize_control_tags (cstr "<Pause [FFF]>")))),
        ∃ cmd : Nat, dictGetL REVERSE_CONTROL_CODES (blankArgs tok) = some cmd ∧
          0 < argCount cmd ∧
          packArgs cmd (argCount cmd) (extractArgs tok) = .error .structError := by
  refine ⟨?_, ?_, ?_⟩
  · exact (C2_codec_totality_amended (cstr "<Pause [0A]>Hi")).1 (by decide)
  · exact (C2_codec_totality_amended (cstr "<Pause []>")).2 .indexError rfl
  · exact (C2_codec_totality_amended (cstr "<Pause [FFF]>")).2 .structError rfl

/-! ### C5 — suppression window -/

/-- C5 (counterexample): a poll inside an active suppression window still
mutates the channel's `ConversationState`, because `watch_dialogue` calls
`state.observe_text(text)` *before* the suppression check: with a fresh state,
suppression until 10 and a changed text at time 5, `lines_seen` becomes 1. -/
theorem C5_suppression_counterexample :
    pollStep
        { printAll := false, text := cstr "Hi",
          state := ({} : ConversationState), lastText := none,
          suppressUntil := 10, now := 5, inProgress := false,
          lockFree := true, injectWriteOk := true, genResult := none,
          suppressSeconds := 25 } =
      .ok { state := observe_text {} (cstr "Hi"), lastText := some (cstr "Hi"),
            suppressUntil := 10, didGenerate := false, injected := false } ∧
      (observe_text {} (cstr "Hi")).lines_seen = 1 ∧
      ({} : ConversationState).lines_seen = 0 := by
  exact ⟨rfl, by decide, rfl⟩

/-- C5 (amended): during an active suppression window a poll never triggers
injection or generation; a text containing `<End Conversation>` clears the
window and resets the state; any other changed text only refreshes
`last_text` — but the `ConversationState` *is* still updated by
`observe_text`, which runs before the suppression check. -/
theorem C5_suppression_amended (inp : PollIn) (h : inp.now < inp.suppressUntil) :
    (inp.printAll = false → some inp.text = inp.lastText →
        pollStep inp = .ok ⟨inp.state, inp.lastText, inp.suppressUntil,
          false, false⟩) ∧
      ((inp.printAll = true ∨ some inp.text ≠ inp.lastText) →
        (pyContains inp.text endConvTag = true →
            pollStep inp = .ok ⟨{}, inp.lastText, 0, false, false⟩) ∧
          (pyContains inp.text endConvTag = false →
            pollStep inp = .ok ⟨observe_text inp.state inp.text, some inp.text,
              inp.suppressUntil, false, false⟩)) := by
  refine ⟨?_, ?_⟩
  · intro hp hl
    have hcond : ¬ (inp.printAll = true ∨ ¬ some inp.text = inp.lastText) := by
      simp [hp, hl]
    unfold pollStep
    rw [if_pos hcond]
  · intro he
    have hcond : ¬ ¬ (inp.printAll = true ∨ ¬ some inp.text = inp.lastText) :=
      not_not_intro he
    constructor
    · intro hEnd
      have hEndP : pyContains inp.text endConvTag := hEnd
      unfold pollStep
      rw [if_neg hcond, if_pos h, if_pos hEndP]
      rfl
    · intro hEnd
      have hEndP : ¬ (pyContains inp.text endConvTag = true) := by
        rw [hEnd]
        simp
      unfold pollStep
      rw [if_neg hcond, if_pos h, if_neg hEndP]

/-- C5 (witness): the amended theorem applied to a concrete suppressed poll
carrying an end-of-conversation text and to a concrete suppressed plain
text. -/
theorem C5_suppression_amended_witness :
    pollStep
        { printAll := false, text := cstr "bye<End Conversation>",
          state := ({ lines_seen := 3 } : ConversationState), lastText := none,
          suppressUntil := 10, now := 5, inProgress := false, lockFree := true,
          injectWriteOk := true, genResult := none, suppressSeconds := 25 } =
      .ok ⟨{}, none, 0, false, false⟩ := by
  exact ((C5_suppression_amended _ (by decide)).2 (by decide)).1 (by decide)

/-! ### C6 — menu injection -/

theorem toLower_ne_lt (c : Char) (h : c ≠ '<') : c.toLower ≠ '<' := by
  have haux : ∀ n : Nat, 65 ≤ n → n ≤ 90 → Char.ofNat (n + 32) ≠ '<' := by
    intro n h1 h2
    interval_cases n <;> decide
  unfold Char.toLower
  simp only []
  split
  · next hr => exact haux c.toNat hr.1 hr.2
  · exact h

theorem ciPrefixOf_self_append (p s : List Char) :
    ciPrefixOf p (p ++ s) = true := by
  induction p with
  | nil => rfl
  | cons c p ih => simp [ciPrefixOf, ih]

/-- A case-insensitive match for a pattern starting with `'<'` cannot start at
any other character. -/
theorem ciPrefixOf_lt_head (ps : List Char) (c : Char) (s : List Char)
    (hc : c ≠ '<') : ciPrefixOf ('<' :: ps) (c :: s) = false := by
  simp only [ciPrefixOf, Bool.and_eq_false_iff, decide_eq_false_iff_not]
  left
  show ¬ '<'.toLower = c.toLower
  intro h
  exact toLower_ne_lt c hc (by rw [← h]; rfl)

theorem choice1At_false_of_head (c : Char) (s : List Char) (hc : c ≠ '<') :
    choice1At (c :: s) = false := by
  have h1 : ciPrefixOf choice1Pre (c :: s) = false := by
    have h0 : choice1Pre = '<' :: cstr "Choice 1 Jump [" := rfl
    rw [h0]
    exact ciPrefixOf_lt_head _ c s hc
  simp [choice1At, h1]

theorem choice1At_true (hs rest : List Char) (hlen : hs.length = 4)
    (hhex : hs.all isHexDigitChar = true) :
    choice1At (choice1Pre ++ (hs ++ (cstr "]>" ++ rest))) = true := by
  have hS2 : choice1Pre ++ (hs ++ (cstr "]>" ++ rest)) =
      (choice1Pre ++ hs) ++ (cstr "]>" ++ rest) := by
    simp [List.append_assoc]
  have e1 : ciPrefixOf choice1Pre (choice1Pre ++ (hs ++ (cstr "]>" ++ rest))) =
      true := ciPrefixOf_self_append _ _
  have hd16 : (choice1Pre ++ (hs ++ (cstr "]>" ++ rest))).drop 16 =
      hs ++ (cstr "]>" ++ rest) := by
    have h16 : (choice1Pre : List Char).length = 16 := rfl
    rw [← h16, List.drop_left]
  have ht4 : (hs ++ (cstr "]>" ++ rest)).take 4 = hs := by
    rw [← hlen, List.take_left]
  have hd20 : (choice1Pre ++ (hs ++ (cstr "]>" ++ rest))).drop 20 =
      cstr "]>" ++ rest := by
    rw [hS2]
    have h20 : ((choice1Pre : List Char) ++ hs).length = 20 := by
      rw [List.length_append, hlen]
      rfl
    rw [← h20, List.drop_left]
  simp only [choice1At, hd16, ht4, hd20]
  simp [e1, hlen, hhex, ciPrefixOf_self_append]

theorem findChoice1_append (mid : List Char) (h : ∀ c ∈ mid, c ≠ '<')
    (t : List Char) (ht : choice1At t = true) (hne : t ≠ []) :
    findChoice1 (mid ++ t) = some mid.length := by
  induction mid with
  | nil =>
    cases t with
    | nil => exact absurd rfl hne
    | cons c s => simp [findChoice1, ht]
  | cons c mid ih =>
    have hc := h c (List.mem_cons_self c mid)
    have hfalse : choice1At (c :: (mid ++ t)) = false :=
      choice1At_false_of_head c _ hc
    have ih2 := ih (fun x hx => h x (List.mem_cons_of_mem c hx))
    simp [findChoice1, hfalse, ih2]

theorem findInject_skip (c : Char) (s : List Char) (hc : c ≠ '<') :
    findInject (c :: s) = (findInject s).map (fun p => (p.1 + 1, p.2 + 1)) := by
  have h1 : ciPrefixOf openMenuTag (c :: s) = false := by
    have h0 : openMenuTag = '<' :: cstr "Open Choice Menu>" := rfl
    rw [h0]
    exact ciPrefixOf_lt_head _ c s hc
  simp [findInject, h1]

theorem findInject_found (mid tail2 : List Char) (hmid : ∀ c ∈ mid, c ≠ '<')
    (ht : choice1At tail2 = true) (hne : tail2 ≠ []) :
    findInject (openMenuTag ++ (mid ++ tail2)) = some (0, 18 + mid.length) := by
  have hopen : ciPrefixOf openMenuTag (openMenuTag ++ (mid ++ tail2)) = true :=
    ciPrefixOf_self_append _ _
  have hdrop : (openMenuTag ++ (mid ++ tail2)).drop 18 = mid ++ tail2 := by
    have h18 : (openMenuTag : List Char).length = 18 := rfl
    rw [← h18, List.drop_left]
  have hfc : findChoice1 (mid ++ tail2) = some mid.length :=
    findChoice1_append mid hmid tail2 ht hne
  have step : findInject (openMenuTag ++ (mid ++ tail2)) =
      if ciPrefixOf openMenuTag (openMenuTag ++ (mid ++ tail2)) then
        match findChoice1 ((openMenuTag ++ (mid ++ tail2)).drop 18) with
        | some dj => some (0, 18 + dj)
        | none =>
          (findInject (cstr "Open Choice Menu>" ++ (mid ++ tail2))).map
            (fun p => (p.1 + 1, p.2 + 1))
      else
        (findInject (cstr "Open Choice Menu>" ++ (mid ++ tail2))).map
          (fun p => (p.1 + 1, p.2 + 1)) := rfl
  rw [step, if_pos hopen, hdrop, hfc]

theorem findInject_pre (pre : List Char) (hpre : ∀ c ∈ pre, c ≠ '<')
    (X : List Char) :
    findInject (pre ++ X) =
      (findInject X).map (fun p => (p.1 + pre.length, p.2 + pre.length)) := by
  induction pre with
  | nil => cases h : findInject X <;> simp [h]
  | cons c pre ih =>
    have hc := hpre c (List.mem_cons_self c pre)
    rw [List.cons_append, findInject_skip c _ hc,
      ih (fun x hx => hpre x (List.mem_cons_of_mem c hx))]
    cases h : findInject X <;> simp [h] <;> omega


/-- C6 (counterexample): the injection does not merely add a new first option
and shift labels — it *replaces* everything between `<Open Choice Menu>` and
the Choice-1 tag: the pre-existing first-choice label `Yes` is gone from the
rewritten text. -/
theorem C6_menu_injection_counterexample :
    inject_feeling_chatty_option
        (cstr "<Open Choice Menu>Yes<Choice 1 Jump [0001]>No<Choice 2 Jump [0002]>") =
      some (cstr "<Open Choice Menu>Feeling chatty<Choice 1 Jump [0001]>No<Choice 2 Jump [0002]>") ∧
      pyContains
        (cstr "<Open Choice Menu>Yes<Choice 1 Jump [0001]>No<Choice 2 Jump [0002]>")
        (cstr "Yes") = true ∧
      pyContains
        (cstr "<Open Choice Menu>Feeling chatty<Choice 1 Jump [0001]>No<Choice 2 Jump [0002]>")
        (cstr "Yes") = false := by
  exact ⟨rfl, by decide, by decide⟩

/-- C6 (amended): for a dialogue text `pre ++ <Open Choice Menu> ++ mid ++
<Choice 1 Jump [hhhh]> ++ rest` (no tags opening in `pre`/`mid`), the injection
replaces `mid` by its leading whitespace, the `Feeling chatty` label and its
trailing whitespace; the prefix, the Choice-1 tag (with its argument bytes)
and everything after it — in particular every later Choice-N jump tag — are
preserved verbatim; and on a successful write of the modified text the
orchestrator marks the channel menu-injected and awaiting-choice-resolution
without generating. -/
theorem C6_menu_injection_amended :
    (∀ pre mid hs rest : List Char, (∀ c ∈ pre, c ≠ '<') →
      (∀ c ∈ mid, c ≠ '<') → hs.length = 4 → hs.all isHexDigitChar = true →
      inject_feeling_chatty_option
          (pre ++ (openMenuTag ++ (mid ++ (choice1Pre ++ (hs ++ (cstr "]>" ++ rest)))))) =
        some (pre ++ (openMenuTag ++ (mid.takeWhile pyIsSpace ++
          (FEELING_CHATTY_LABEL ++ ((mid.reverse.takeWhile pyIsSpace).reverse ++
            (choice1Pre ++ (hs ++ (cstr "]>" ++ rest))))))))) ∧
    ∀ (inp : PollIn) (m : List Char),
      (inp.printAll = true ∨ some inp.text ≠ inp.lastText) →
      ¬ inp.now < inp.suppressUntil →
      (observe_text inp.state inp.text).ready_for_chatty = true →
      pyContains inp.text openMenuTag = true →
      (observe_text inp.state inp.text).menu_injected = false →
      inject_feeling_chatty_option inp.text = some m →
      m ≠ inp.text →
      exceptIsOk (encode_ac_text m) = true →
      inp.injectWriteOk = true →
      ∃ out : PollOut, pollStep inp = .ok out ∧
        out.state.menu_injected = true ∧
        out.state.awaiting_choice_resolution = true ∧
        out.injected = true ∧ out.didGenerate = false := by
  constructor
  · intro pre mid hs rest hpre hmid hlen hhex
    have htail_ne : choice1Pre ++ (hs ++ (cstr "]>" ++ rest)) ≠ [] := by
      intro h
      exact absurd (List.append_eq_nil.mp h).1 (by decide)
    have hfound := findInject_found mid (choice1Pre ++ (hs ++ (cstr "]>" ++ rest)))
      hmid (choice1At_true hs rest hlen hhex) htail_ne
    have hfind := findInject_pre pre hpre
      (openMenuTag ++ (mid ++ (choice1Pre ++ (hs ++ (cstr "]>" ++ rest)))))
    rw [hfound] at hfind
    simp only [Option.map_some'] at hfind
    unfold inject_feeling_chatty_option
    rw [hfind]
    have e1 : (pre ++ (openMenuTag ++ (mid ++ (choice1Pre ++ (hs ++ (cstr "]>" ++ rest)))))).take
        (0 + pre.length) = pre := by
      rw [Nat.zero_add, List.take_left]
    have e2 : ((pre ++ (openMenuTag ++ (mid ++ (choice1Pre ++ (hs ++ (cstr "]>" ++ rest)))))).drop
        (0 + pre.length)).take 18 = openMenuTag := by
      rw [Nat.zero_add, List.drop_left]
      have h18 : (openMenuTag : List Char).length = 18 := rfl
      rw [← h18, List.take_left]
    have h18 : (openMenuTag : List Char).length = 18 := rfl
    have hdropPre : ∀ k : Nat,
        (pre ++ (openMenuTag ++ (mid ++ (choice1Pre ++ (hs ++ (cstr "]>" ++ rest)))))).drop
          (k + pre.length) =
          ((openMenuTag ++ (mid ++ (choice1Pre ++ (hs ++ (cstr "]>" ++ rest))))).drop k) := by
      intro k
      rw [Nat.add_comm, ← List.drop_drop, List.drop_left]
    have hdrop18 : (openMenuTag ++ (mid ++ (choice1Pre ++ (hs ++ (cstr "]>" ++ rest))))).drop 18 =
        mid ++ (choice1Pre ++ (hs ++ (cstr "]>" ++ rest))) := by
      rw [← h18, List.drop_left]
    have hre : choice1Pre ++ (hs ++ (cstr "]>" ++ rest)) =
        (choice1Pre ++ (hs ++ cstr "]>")) ++ rest := by
      simp [List.append_assoc]
    have hlen22 : (choice1Pre ++ (hs ++ cstr "]>")).length = 22 := by
      rw [List.length_append, List.length_append, hlen]
      rfl
    have e3 : ((pre ++ (openMenuTag ++ (mid ++ (choice1Pre ++ (hs ++ (cstr "]>" ++ rest)))))).drop
        (0 + pre.length + 18)).take (18 + mid.length + pre.length - (0 + pre.length + 18)) =
        mid := by
      have harith : 18 + mid.length + pre.length - (0 + pre.length + 18) = mid.length := by
        omega
      have hidx : 0 + pre.length + 18 = 18 + pre.length := by omega
      rw [harith, hidx, hdropPre, hdrop18, List.take_left]
    have e4 : ((pre ++ (openMenuTag ++ (mid ++ (choice1Pre ++ (hs ++ (cstr "]>" ++ rest)))))).drop
        (18 + mid.length + pre.length)).take 22 = choice1Pre ++ (hs ++ cstr "]>") := by
      have hidx : 18 + mid.length + pre.length = (18 + mid.length) + pre.length := by omega
      rw [hidx, hdropPre, ← List.drop_drop]
      rw [hdrop18]
      have hdm : (mid ++ (choice1Pre ++ (hs ++ (cstr "]>" ++ rest)))).drop mid.length =
          choice1Pre ++ (hs ++ (cstr "]>" ++ rest)) := List.drop_left _ _
      rw [hdm, hre, ← hlen22, List.take_left]
    have e5 : (pre ++ (openMenuTag ++ (mid ++ (choice1Pre ++ (hs ++ (cstr "]>" ++ rest)))))).drop
        (18 + mid.length + pre.length + 22) = rest := by
      have hidx : 18 + mid.length + pre.length + 22 = ((18 + mid.length) + 22) + pre.length := by
        omega
      rw [hidx, hdropPre, ← List.drop_drop, ← List.drop_drop, hdrop18]
      have hdm : (mid ++ (choice1Pre ++ (hs ++ (cstr "]>" ++ rest)))).drop mid.length =
          choice1Pre ++ (hs ++ (cstr "]>" ++ rest)) := List.drop_left _ _
      rw [hdm, hre, ← hlen22, List.drop_left]
    simp only [e1, e2, e3, e4, e5]
    simp [List.append_assoc]
  · intro inp m henter hns hready hmenu hninj hinj hne hok hw
    have hcond : ¬ ¬ (inp.printAll = true ∨ ¬ some inp.text = inp.lastText) :=
      not_not_intro henter
    have hgate : (observe_text inp.state inp.text).ready_for_chatty = true ∧
        pyContains inp.text openMenuTag = true ∧
        ¬ (observe_text inp.state inp.text).menu_injected = true := by
      refine ⟨hready, hmenu, ?_⟩
      simp [hninj]
    unfold pollStep
    rw [if_neg hcond, if_neg hns, if_pos hgate, hinj]
    split
    next modified hmod =>
      injection hmod with hm
      subst hm
      rw [if_pos hne]
      split
      next bs he =>
        have hwP : inp.injectWriteOk = true := hw
        rw [if_pos hwP]
        exact ⟨_, rfl, rfl, rfl, rfl, rfl⟩
      next e he =>
        rw [he] at hok
        simp [exceptIsOk] at hok
    next hmod =>
      exact Option.noConfusion hmod


/-- C6 (witness): the amended theorem applied to a concrete menu text with a
prefix, a padded first-choice label and a second choice tag, and to a concrete
poll input that performs the injection write. -/
theorem C6_menu_injection_amended_witness :
    inject_feeling_chatty_option
        (cstr "A: " ++ (openMenuTag ++ (cstr " Yes " ++ (choice1Pre ++
          (cstr "0001" ++ (cstr "]>" ++ cstr "No<Choice 2 Jump [0002]>")))))) =
      some (cstr "A: " ++ (openMenuTag ++ ((cstr " Yes ").takeWhile pyIsSpace ++
        (FEELING_CHATTY_LABEL ++ (((cstr " Yes ").reverse.takeWhile pyIsSpace).reverse ++
          (choice1Pre ++ (cstr "0001" ++ (cstr "]>" ++
            cstr "No<Choice 2 Jump [0002]>")))))))) ∧
    ∃ out : PollOut,
      pollStep
          { printAll := true,
            text := cstr "<Open Choice Menu> Yes <Choice 1 Jump [0001]>No<Choice 2 Jump [0002]>",
            state := ({ ready_for_chatty := true } : ConversationState),
            lastText := none, suppressUntil := 0, now := 5, inProgress := false,
            lockFree := true, injectWriteOk := true, genResult := none,
            suppressSeconds := 25 } = .ok out ∧
        out.state.menu_injected = true ∧
        out.state.awaiting_choice_resolution = true ∧
        out.injected = true ∧ out.didGenerate = false := by
  constructor
  · exact (C6_menu_injection_amended).1 (cstr "A: ") (cstr " Yes ") (cstr "0001")
      (cstr "No<Choice 2 Jump [0002]>") (by decide) (by decide) (by decide) (by decide)
  · exact (C6_menu_injection_amended).2 _
      (cstr "<Open Choice Menu> Feeling chatty <Choice 1 Jump [0001]>No<Choice 2 Jump [0002]>")
      (Or.inl rfl) (by decide) (by decide) (by decide) (by decide) (by decide)
      (by decide) (by decide) rfl

/-! ### C4 — single-flight generation -/

/-- The inductive invariant: an address inside the generation call holds the
global lock. -/
def genInv {n : Nat} (s : GenSys n) : Prop :=
  ∀ a : Fin n, s.phase a = .generating → s.lockHeld = some a

theorem genInv_init (n : Nat) : genInv (GenSys.init n) := by
  intro a h
  simp [GenSys.init] at h

theorem genInv_step {n : Nat} {s s2 : GenSys n} (hstep : GenStep s s2)
    (hinv : genInv s) : genInv s2 := by
  cases hstep with
  | request a s hph hip hlk =>
    intro b hb
    simp only [Function.update] at hb ⊢
    by_cases hab : b = a
    · subst hab
      simp at hb
    · simp [hab] at hb
      exact hinv b hb
  | acquire a s hph hlk =>
    intro b hb
    simp only [Function.update] at hb
    by_cases hab : b = a
    · subst hab
      rfl
    · simp [hab] at hb
      have := hinv b hb
      rw [hlk] at this
      cases this
  | finish a s hph =>
    intro b hb
    simp only [Function.update] at hb
    by_cases hab : b = a
    · subst hab
      simp at hb
    · simp [hab] at hb
      have h1 := hinv b hb
      have h2 := hinv a hph
      rw [h1] at h2
      cases h2
      exact absurd rfl hab

theorem genReachable_inv {n : Nat} (s : GenSys n) (h : GenReachable s) :
    genInv s := by
  induction h with
  | refl => exact genInv_init n
  | tail _ hstep ih => exact genInv_step hstep ih

/-- C4: in every state reachable by the generation-entry protocol of
`watch_dialogue` (observe the gate free and the per-address flag clear, then
block on `GLOBAL_GENERATION_LOCK`, generate while holding it, release in
`finally`), at most one address is inside the generation call. -/
theorem C4_single_flight {n : Nat} (s : GenSys n) (h : GenReachable s)
    (a b : Fin n) (ha : s.phase a = .generating)
    (hb : s.phase b = .generating) : a = b := by
  have inv := genReachable_inv s h
  have h1 := inv a ha
  have h2 := inv b hb
  rw [h1] at h2
  cases h2
  rfl

/-- C4 (witness): two addresses; address 0 requests and acquires the gate; the
theorem applied at the resulting reachable state. -/
theorem C4_single_flight_witness :
    ∃ s : GenSys 2, GenReachable s ∧ s.phase 0 = .generating ∧ (0 : Fin 2) = 0 := by
  have h1 : GenStep (GenSys.init 2)
      (⟨none, Function.update (fun _ => false) 0 true,
        Function.update (fun _ => GenPhase.idle) 0 GenPhase.requested⟩ : GenSys 2) :=
    GenStep.request 0 (GenSys.init 2) rfl rfl rfl
  have h2 : GenStep
      (⟨none, Function.update (fun _ => false) 0 true,
        Function.update (fun _ => GenPhase.idle) 0 GenPhase.requested⟩ : GenSys 2)
      (⟨some 0, Function.update (fun _ => false) 0 true,
        Function.update (Function.update (fun _ => GenPhase.idle) 0
          GenPhase.requested) 0 GenPhase.generating⟩ : GenSys 2) :=
    GenStep.acquire 0 _ (by simp [Function.update]) rfl
  have hreach : GenReachable
      (⟨some 0, Function.update (fun _ => false) 0 true,
        Function.update (Function.update (fun _ => GenPhase.idle) 0
          GenPhase.requested) 0 GenPhase.generating⟩ : GenSys 2) :=
    Relation.ReflTransGen.tail (Relation.ReflTransGen.single h1) h2
  exact ⟨_, hreach, by simp [Function.update],
    C4_single_flight _ hreach 0 0 (by simp [Function.update])
      (by simp [Function.update])⟩

/-! ### C9 — glyph table well-formedness -/

set_option maxHeartbeats 4000000

/-- C9 (counterexample): the claim asserts that neither reserved byte has a
glyph entry, but `CHARACTER_MAP` does map the terminator byte `0x00` (to `¡`),
so the claim as stated is false. -/
theorem C9_glyph_counterexample :
    dictGet CHARACTER_MAP 0x00 = some (cstr "¡") ∧
      ¬ dictGet CHARACTER_MAP 0x00 = none := by
  refine ⟨by decide, by decide⟩

/-- C9 (amended): the glyph table's keys are distinct and its display strings
are pairwise distinct (so decoding is injective on mapped bytes and the
reverse map is well defined); the prefix byte `0x7F` has no glyph entry; the
terminator byte `0x00` does have one (`¡`), but it is unreachable in decode
because a `0x00` byte terminates `parse_ac_text` before any glyph lookup. -/
theorem C9_glyph_table_amended :
    (CHARACTER_MAP.map Prod.fst).Nodup ∧
      (CHARACTER_MAP.map Prod.snd).Nodup ∧
      dictGet CHARACTER_MAP PREFIX_BYTE = none ∧
      dictGet CHARACTER_MAP 0x00 = some (cstr "¡") ∧
      ∀ rest : List Nat, parse_loop (0x00 :: rest) = [] := by
  exact ⟨by decide, by decide, by decide, by decide, fun rest => parse_loop_zero rest⟩

/-! ### C3 — malformed-code recovery in decode -/

theorem parse_loop_trailing_prefix (pre : List Nat)
    (h : ∀ b ∈ pre, b ≠ 0 ∧ b ≠ PREFIX_BYTE) :
    parse_loop (pre ++ [PREFIX_BYTE]) = parse_loop pre := by
  induction pre with
  | nil => rfl
  | cons b pre ih =>
    have hb := h b (List.mem_cons_self b pre)
    have hpre : ∀ x ∈ pre, x ≠ 0 ∧ x ≠ PREFIX_BYTE :=
      fun x hx => h x (List.mem_cons_of_mem b hx)
    rw [List.cons_append, parse_loop_glyph b _ hb.1 hb.2,
      parse_loop_glyph b _ hb.1 hb.2, ih hpre]

/-- C3: when the scanner sits on a prefix byte whose opcode declares more
argument bytes than remain in the buffer, it emits the malformed-code marker
for that opcode, consumes exactly the bytes present, and the scan ends with a
valid text; in particular a buffer of plain glyph bytes ending in a bare
`0x7F` decodes to the same text as without the dangling prefix byte, without
any error. -/
theorem C3_malformed_recovery :
    (∀ (command : Nat) (rest : List Nat), command ≠ 0 →
        0 < argCount command → rest.length < argCount command →
        parse_loop (PREFIX_BYTE :: command :: rest) = malformedCode command) ∧
      ∀ pre : List Nat, (∀ b ∈ pre, b ≠ 0 ∧ b ≠ PREFIX_BYTE) →
        parse_loop (pre ++ [PREFIX_BYTE]) = parse_loop pre := by
  exact ⟨parse_loop_malformed, parse_loop_trailing_prefix⟩

/-- C3 (witness): the theorem applied at the concrete truncated buffer
`7F 10 AB` (Choice 2 Jump missing one argument byte) and at `61 7F`
(a glyph followed by a bare prefix byte). -/
theorem C3_malformed_recovery_witness :
    parse_loop [PREFIX_BYTE, 0x10, 0xAB] = malformedCode 0x10 ∧
      parse_loop [0x61, PREFIX_BYTE] = parse_loop [0x61] := by
  constructor
  · exact C3_malformed_recovery.1 0x10 [0xAB] (by decide) (by decide) (by decide)
  · exact C3_malformed_recovery.2 [0x61] (by decide)

/-! ### C10 — eligibility is sticky -/

/-- C10: once `ready_for_chatty` is set it survives every `observe_text` whose
text lacks the end-of-conversation marker, and a text containing
`<End Conversation>` resets the state to its initial value (clearing it). -/
theorem C10_ready_sticky (st : ConversationState) (text : List Char) :
    (pyContains text endConvTag = true → observe_text st text = {}) ∧
      (pyContains text endConvTag = false → st.ready_for_chatty = true →
        (observe_text st text).ready_for_chatty = true) := by
  constructor
  · intro h
    simp [observe_text, h, resetState]
  · intro h hr
    simp only [observe_text, h]
    split_ifs <;> simp_all

/-! ### C7 — distinct-line debounce -/

/-- C7 (counterexample): two consecutive observations with identical *visible*
text can increase the distinct-line counter: a choice-menu text (whose visible
part is never recorded) followed by the same visible text as a plain line
increments `lines_seen` on the second observation, so the claim as stated is
false. -/
theorem C7_debounce_counterexample :
    pyStrip (strip_control_codes (cstr "<Open Choice Menu>x")) =
        pyStrip (strip_control_codes (cstr "x")) ∧
      (observe_text (observe_text {} (cstr "<Open Choice Menu>x"))
            (cstr "x")).lines_seen =
        (observe_text {} (cstr "<Open Choice Menu>x")).lines_seen + 1 := by
  decide

theorem observe_endConv (st : ConversationState) (t : List Char)
    (h : pyContains t endConvTag = true) : observe_text st t = {} := by
  simp [observe_text, h, resetState]

theorem observe_menu (st : ConversationState) (t : List Char)
    (hE : pyContains t endConvTag = false)
    (hM : pyContains t openMenuTag = true) :
    (observe_text st t).lines_seen = st.lines_seen ∧
      (observe_text st t).last_visible_text = st.last_visible_text ∧
      (observe_text st t).awaiting_choice_resolution =
        st.awaiting_choice_resolution := by
  simp only [observe_text, hE, hM, Bool.false_eq_true, reduceIte,
    not_true_eq_false, and_false, if_false]
  split <;> simp


/-- Shared characterization of the two line-counting branches of
`observe_text` (follow-up after awaiting resolution, and plain dialogue). -/
theorem observe_counting_char (st : ConversationState) (t : List Char)
    (hE : pyContains t endConvTag = false)
    (hM : pyContains t openMenuTag = false) :
    (observe_text st t).awaiting_choice_resolution = false ∧
      (pyStrip (strip_control_codes t) = [] →
        (observe_text st t).lines_seen = st.lines_seen ∧
          (observe_text st t).last_visible_text = st.last_visible_text) ∧
      (pyStrip (strip_control_codes t) ≠ [] →
        (observe_text st t).last_visible_text =
          some (pyStrip (strip_control_codes t))) ∧
      ((observe_text st t).lines_seen = st.lines_seen ∨
        ((observe_text st t).lines_seen = st.lines_seen + 1 ∧
          pyStrip (strip_control_codes t) ≠ [] ∧
          some (pyStrip (strip_control_codes t)) ≠ st.last_visible_text)) := by
  by_cases hA : st.awaiting_choice_resolution = true
  · simp only [observe_text, hE, hM, hA, Bool.false_eq_true, reduceIte,
      not_false_eq_true, and_true, and_false, if_false, if_true]
    by_cases hv : pyStrip (strip_control_codes t) = []
    · simp [hv]
    · by_cases hl : some (pyStrip (strip_control_codes t)) = st.last_visible_text
      · simp only [ne_eq, hv, not_false_iff, if_true, hl, reduceIte, not_true_eq_false,
          if_false]
        simp [hl.symm]
      · simp only [ne_eq, hv, not_false_iff, if_true, hl, reduceIte, not_false_eq_true,
          if_false]
        split <;> simp_all
  · have hA2 : st.awaiting_choice_resolution = false := by
      cases h : st.awaiting_choice_resolution
      · rfl
      · exact absurd h hA
    simp only [observe_text, hE, hM, hA2, Bool.false_eq_true, reduceIte,
      not_false_eq_true, and_true, false_and, if_false]
    by_cases hv : pyStrip (strip_control_codes t) = []
    · simp [hv, hA2]
    · by_cases hl : some (pyStrip (strip_control_codes t)) = st.last_visible_text
      · simp only [ne_eq, hv, not_false_iff, if_true, hl, reduceIte, not_true_eq_false,
          if_false]
        simp [hl.symm, hA2]
      · simp only [ne_eq, hv, not_false_iff, if_true, hl, reduceIte, not_false_eq_true,
          if_false]
        split <;> simp_all


/-- C7 (amended): `lines_seen` increases only when the stripped visible text
is non-empty and differs from the recorded `last_visible_text`; an observation
whose stripped visible text is empty (pure control tags, empty strings) never
increases it; and re-observing the *same text* never increases it.  (Two
observations that merely share the same visible text can still increment the
counter when the first was a choice-menu text, which is never recorded.) -/
theorem C7_debounce_amended (st : ConversationState) (t : List Char) :
    ((observe_text st t).lines_seen > st.lines_seen →
        pyStrip (strip_control_codes t) ≠ [] ∧
          some (pyStrip (strip_control_codes t)) ≠ st.last_visible_text) ∧
      (pyStrip (strip_control_codes t) = [] →
        (observe_text st t).lines_seen ≤ st.lines_seen) ∧
      (observe_text (observe_text st t) t).lines_seen ≤
        (observe_text st t).lines_seen := by
  by_cases hE : pyContains t endConvTag = true
  · rw [observe_endConv st t hE, observe_endConv {} t hE]
    refine ⟨?_, ?_, le_rfl⟩ <;> intro h <;> simp_all
  · have hE2 : pyContains t endConvTag = false := by
      cases h : pyContains t endConvTag
      · rfl
      · exact absurd h hE
    by_cases hM : pyContains t openMenuTag = true
    · obtain ⟨hl1, hv1, ha1⟩ := observe_menu st t hE2 hM
      obtain ⟨hl2, _, _⟩ := observe_menu (observe_text st t) t hE2 hM
      refine ⟨?_, ?_, ?_⟩
      · intro h
        omega
      · intro _
        omega
      · omega
    · have hM2 : pyContains t openMenuTag = false := by
        cases h : pyContains t openMenuTag
        · rfl
        · exact absurd h hM
      obtain ⟨ha1, he1, hn1, hd1⟩ := observe_counting_char st t hE2 hM2
      obtain ⟨ha2, he2, hn2, hd2⟩ :=
        observe_counting_char (observe_text st t) t hE2 hM2
      refine ⟨?_, ?_, ?_⟩
      · intro h
        rcases hd1 with h1 | ⟨_, h2, h3⟩
        · omega
        · exact ⟨h2, h3⟩
      · intro h
        rcases hd1 with h1 | ⟨_, h2, _⟩
        · omega
        · exact absurd h h2
      · by_cases hv : pyStrip (strip_control_codes t) = []
        · have := (he2 hv).1
          omega
        · have hlast := hn1 hv
          rcases hd2 with h1 | ⟨_, _, h3⟩
          · omega
          · rw [hlast] at h3
            exact absurd rfl h3

/-- C7 (witness): the amended theorem applied to the initial state and the
text `"Hi"`, whose hypotheses are discharged concretely. -/
theorem C7_debounce_amended_witness :
    pyStrip (strip_control_codes (cstr "<Press A>")) = [] ∧
      (observe_text {} (cstr "<Press A>")).lines_seen ≤
        ({} : ConversationState).lines_seen := by
  exact ⟨by decide, (C7_debounce_amended {} (cstr "<Press A>")).2.1 (by decide)⟩

/-- C10 (witness): concrete checks of both conjuncts. -/
theorem C10_ready_sticky_witness :
    observe_text { ready_for_chatty := true } (cstr "bye<End Conversation>") = {} ∧
      (observe_text { ready_for_chatty := true } (cstr "Hi")).ready_for_chatty = true := by
  constructor
  · exact (C10_ready_sticky _ _).1 (by decide)
  · exact (C10_ready_sticky { ready_for_chatty := true } (cstr "Hi")).2
      (by decide) rfl


/-! ### C8 — word wrap -/

theorem processChars_mapped (w : List Char) : ∀ (out : List Nat) (cnt : Nat),
    (∀ c ∈ w, (revCharGet c).isSome ∧ c ≠ Char.ofNat 10) →
    processChars out cnt w =
      ⟨out ++ w.map (fun c => (revCharGet c).getD 0), cnt + w.length⟩ := by
  induction w with
  | nil => intro out cnt h; simp [processChars]
  | cons c cs ih =>
    intro out cnt h
    have hc := h c (List.mem_cons_self _ _)
    obtain ⟨b, hb⟩ := Option.isSome_iff_exists.mp hc.1
    have hnl : ¬ c = Char.ofNat 10 := hc.2
    simp only [processChars, hb, if_neg hnl]
    rw [ih (out ++ [b]) (cnt + 1) (fun x hx => h x (List.mem_cons_of_mem _ hx))]
    simp [hb]
    omega

theorem processChars_mem (w : List Char) : ∀ (out : List Nat) (cnt : Nat)
    (x : Nat), x ∈ (processChars out cnt w).out ↔
      x ∈ out ∨ ∃ c ∈ w, revCharGet c = some x := by
  induction w with
  | nil => intro out cnt x; simp [processChars]
  | cons c cs ih =>
    intro out cnt x
    cases hb : revCharGet c with
    | some b =>
      simp only [processChars, hb]
      rw [ih]
      simp only [List.mem_append, List.mem_singleton, List.mem_cons]
      constructor
      · rintro (⟨hx | hx⟩ | ⟨d, hd, hdx⟩)
        · exact Or.inl hx
        · rcases hx with rfl | hx
          · exact Or.inr ⟨c, Or.inl rfl, hb⟩
          · cases hx
        · exact Or.inr ⟨d, Or.inr hd, hdx⟩
      · rintro (hx | ⟨d, (hd | hd), hdx⟩)
        · exact Or.inl (Or.inl hx)
        · subst hd
          rw [hb] at hdx
          have hbx : b = x := by
            injection hdx
          exact Or.inl (Or.inr (Or.inl hbx.symm))
        · exact Or.inr ⟨d, hd, hdx⟩
    | none =>
      simp only [processChars, hb]
      rw [ih]
      constructor
      · rintro (hx | ⟨d, hd, hdx⟩)
        · exact Or.inl hx
        · exact Or.inr ⟨d, List.mem_cons_of_mem _ hd, hdx⟩
      · rintro (hx | ⟨d, hd, hdx⟩)
        · exact Or.inl hx
        · rcases List.mem_cons.mp hd with hd | hd
          · subst hd
            rw [hb] at hdx
            exact absurd hdx (by simp)
          · exact Or.inr ⟨d, hd, hdx⟩

/-- C8 (counterexample): a single word of 31 visible characters at the start
of a line is written without any line-break byte `0xCD`, although appending it
exceeds the 30-visible-character budget — the break is only emitted when the
column counter is already positive. -/
theorem C8_word_wrap_counterexample :
    ∃ bs : List Nat, encode_ac_text (List.replicate 31 (Char.ofNat 97)) = .ok bs ∧
      bs.count 0xCD = 0 ∧ 30 < 0 + 31 := by
  refine ⟨_, rfl, by decide, by decide⟩


theorem processWord_break (st : EncSt) (idx : Nat) (w : List Char)
    (h1 : 0 < st.cnt)
    (h2 : 30 < st.cnt + (if 0 < idx ∧ 0 < st.cnt then 1 else 0) + w.length) :
    processWord st idx w = processChars (st.out ++ [0xCD]) 0 w := by
  have hif : (if 0 < idx ∧ 0 < st.cnt then 1 else 0) =
      (if 0 < idx then 1 else 0 : Nat) := by
    by_cases hi : 0 < idx <;> simp [hi, h1]
  have h2x : 30 < st.cnt + (if 0 < idx then 1 else 0) + w.length := by
    rw [← hif]
    exact h2
  unfold processWord
  simp [h1, h2x]

theorem processWord_nobreak (st : EncSt) (idx : Nat) (w : List Char)
    (h : ¬ (0 < st.cnt ∧
      30 < st.cnt + (if 0 < idx ∧ 0 < st.cnt then 1 else 0) + w.length)) :
    processWord st idx w =
      if 0 < idx ∧ 0 < st.cnt then processChars (st.out ++ [0x20]) (st.cnt + 1) w
      else processChars st.out st.cnt w := by
  unfold processWord
  by_cases hsp : 0 < idx ∧ 0 < st.cnt
  · have hc : ¬ (0 < st.cnt ∧ 30 < st.cnt + 1 + w.length) := by
      rw [if_pos hsp] at h
      exact h
    rw [if_pos hsp] at h ⊢
    simp [hsp.2] at hc ⊢
    have hfc : ¬ (30 < st.cnt + 1 + w.length) := by omega
    simp [hfc, hsp.1]
  · have hc : ¬ (0 < st.cnt ∧ 30 < st.cnt + 0 + w.length) := by
      rw [if_neg hsp] at h
      exact h
    have hc2 : ¬ (0 < st.cnt ∧ 30 < st.cnt + w.length) := by
      simpa using hc
    rw [if_neg hsp]
    simp [hsp, hc2]


theorem processWord_start (st : EncSt) (idx : Nat) (w : List Char)
    (h : st.cnt = 0) : processWord st idx w = processChars st.out 0 w := by
  rw [processWord_nobreak st idx w (by simp [h])]
  rw [if_neg (by simp [h]), h]

theorem encodeToken_word (st : EncSt) (tok : List Char) (hne : tok ≠ [])
    (hhead : tok.head? ≠ some '<') :
    encodeToken st tok = .ok (processWords st (pySplitSpace tok [])) := by
  unfold encodeToken
  rw [if_neg hne, if_neg (fun hh => hhead hh.1)]

/-- C8 (amended): (i) a single space-free word at the start of a line is
written contiguously — with no line-break byte — whatever its length, so a
30-character run is never split (and neither is an overlong one); (ii) two
words whose joint width exceeds the 30-column budget are split exactly at the
word boundary: the break byte `0xCD` replaces the separating space and each
word's bytes stay contiguous; (iii) at the word level, the break byte is
emitted exactly when the column counter is positive and the counter plus the
separating space plus the word length exceeds 30 — in particular never when
the counter is 0, however long the word. -/
theorem C8_word_wrap_amended :
    (∀ w : List Char, w ≠ [] →
      sanitize_for_charset (normalize_visible_text (normalize_control_tags w)) = w →
      splitTags w = [w] →
      pySplitSpace w [] = [w] →
      (∀ c ∈ w, (revCharGet c).isSome ∧ c ≠ Char.ofNat 10 ∧ c ≠ '<') →
      encode_ac_text w = .ok (w.map (fun c => (revCharGet c).getD 0) ++ [0x00])) ∧
    (∀ wa wb : List Char, wa ≠ [] →
      sanitize_for_charset (normalize_visible_text (normalize_control_tags
        (wa ++ ' ' :: wb))) = wa ++ ' ' :: wb →
      splitTags (wa ++ ' ' :: wb) = [wa ++ ' ' :: wb] →
      pySplitSpace (wa ++ ' ' :: wb) [] = [wa, wb] →
      (∀ c ∈ wa ++ wb, (revCharGet c).isSome ∧ c ≠ Char.ofNat 10 ∧ c ≠ '<') →
      30 < wa.length + 1 + wb.length →
      encode_ac_text (wa ++ ' ' :: wb) =
        .ok (wa.map (fun c => (revCharGet c).getD 0) ++ 0xCD ::
          (wb.map (fun c => (revCharGet c).getD 0) ++ [0x00]))) ∧
    (∀ (st : EncSt) (idx : Nat) (w : List Char),
      (∀ c ∈ w, revCharGet c ≠ some 0xCD) → 0xCD ∉ st.out →
      (0xCD ∈ (processWord st idx w).out ↔
        0 < st.cnt ∧ 30 < st.cnt +
          (if 0 < idx ∧ 0 < st.cnt then 1 else 0) + w.length)) := by
  refine ⟨?_, ?_, ?_⟩
  · intro w hw hpipe hsplit hws hchars
    have hhead : w.head? ≠ some '<' := by
      cases w with
      | nil => simp
      | cons c cs =>
        intro hcon
        have hc : c = '<' := by
          injection hcon
        exact (hchars c (List.mem_cons_self _ _)).2.2 hc
    have htok := encodeToken_word ⟨[], 0⟩ w hw hhead
    rw [hws] at htok
    have hpw : processWords ⟨[], 0⟩ [w] = processChars [] 0 w := by
      have h0 : processWords ⟨[], 0⟩ [w] = processWord ⟨[], 0⟩ 0 w := rfl
      rw [h0, processWord_start _ _ _ rfl]
    have hmap := processChars_mapped w [] 0
      (fun c hc => ⟨(hchars c hc).1, (hchars c hc).2.1⟩)
    rw [hpw, hmap] at htok
    unfold encode_ac_text
    rw [hpipe, hsplit]
    have htoks : encodeTokens ⟨[], 0⟩ [w] =
        .ok ⟨[] ++ w.map (fun c => (revCharGet c).getD 0), 0 + w.length⟩ := by
      simp only [encodeTokens]
      rw [htok]
    rw [htoks]
    simp
  · intro wa wb ha hpipe hsplit hws hchars hlen
    have hne : wa ++ ' ' :: wb ≠ [] := by
      cases wa <;> simp
    have hhead : (wa ++ ' ' :: wb).head? ≠ some '<' := by
      cases wa with
      | nil =>
        simp
      | cons c cs =>
        intro hcon
        have hc : c = '<' := by
          injection hcon
        exact (hchars c (List.mem_append_left _ (List.mem_cons_self _ _))).2.2 hc
    have htok := encodeToken_word ⟨[], 0⟩ _ hne hhead
    rw [hws] at htok
    have hmapa := processChars_mapped wa [] 0
      (fun c hc => ⟨(hchars c (List.mem_append_left _ hc)).1,
        (hchars c (List.mem_append_left _ hc)).2.1⟩)
    have hstep1 : processWords ⟨[], 0⟩ [wa, wb] =
        processWordsFrom (processChars [] 0 wa) 1 [wb] := by
      have h0 : processWords ⟨[], 0⟩ [wa, wb] =
          processWordsFrom (processWord ⟨[], 0⟩ 0 wa) 1 [wb] := rfl
      rw [h0, processWord_start _ _ _ rfl]
    rw [hmapa] at hstep1
    have hcnt : 0 < (⟨[] ++ wa.map (fun c => (revCharGet c).getD 0),
        0 + wa.length⟩ : EncSt).cnt := by
      have := List.length_pos.mpr ha
      simp only []
      omega
    have hover : 30 < (⟨[] ++ wa.map (fun c => (revCharGet c).getD 0),
        0 + wa.length⟩ : EncSt).cnt +
        (if 0 < 1 ∧ 0 < (⟨[] ++ wa.map (fun c => (revCharGet c).getD 0),
          0 + wa.length⟩ : EncSt).cnt then 1 else 0) + wb.length := by
      rw [if_pos ⟨Nat.zero_lt_one, hcnt⟩]
      simp only []
      omega
    have hstep2 : processWordsFrom (⟨[] ++ wa.map (fun c => (revCharGet c).getD 0),
        0 + wa.length⟩ : EncSt) 1 [wb] =
        processChars (([] ++ wa.map (fun c => (revCharGet c).getD 0)) ++ [0xCD]) 0 wb := by
      have h0 : processWordsFrom (⟨[] ++ wa.map (fun c => (revCharGet c).getD 0),
          0 + wa.length⟩ : EncSt) 1 [wb] =
          processWord (⟨[] ++ wa.map (fun c => (revCharGet c).getD 0),
            0 + wa.length⟩ : EncSt) 1 wb := rfl
      rw [h0, processWord_break _ _ _ hcnt hover]
    have hmapb := processChars_mapped wb
      (([] ++ wa.map (fun c => (revCharGet c).getD 0)) ++ [0xCD]) 0
      (fun c hc => ⟨(hchars c (List.mem_append_right _ hc)).1,
        (hchars c (List.mem_append_right _ hc)).2.1⟩)
    rw [hstep2, hmapb] at hstep1
    rw [hstep1] at htok
    unfold encode_ac_text
    rw [hpipe, hsplit]
    have htoks : encodeTokens ⟨[], 0⟩ [wa ++ ' ' :: wb] =
        .ok ⟨(([] ++ wa.map (fun c => (revCharGet c).getD 0)) ++ [0xCD]) ++
          wb.map (fun c => (revCharGet c).getD 0), 0 + wb.length⟩ := by
      simp only [encodeTokens]
      rw [htok]
    rw [htoks]
    simp
  · intro st idx w hw hout
    by_cases hbrk : 0 < st.cnt ∧
        30 < st.cnt + (if 0 < idx ∧ 0 < st.cnt then 1 else 0) + w.length
    · rw [processWord_break st idx w hbrk.1 hbrk.2, processChars_mem]
      exact iff_of_true
        (Or.inl (List.mem_append_right _ (List.mem_singleton.mpr rfl))) hbrk
    · rw [processWord_nobreak st idx w hbrk]
      have hmem : 0xCD ∉ (if 0 < idx ∧ 0 < st.cnt then
          processChars (st.out ++ [0x20]) (st.cnt + 1) w
          else processChars st.out st.cnt w).out := by
        by_cases hsp : 0 < idx ∧ 0 < st.cnt
        · rw [if_pos hsp, processChars_mem]
          rintro (hx | ⟨c, hc, hcx⟩)
          · rcases List.mem_append.mp hx with hx | hx
            · exact hout hx
            · exact absurd hx (by decide)
          · exact hw c hc hcx
        · rw [if_neg hsp, processChars_mem]
          rintro (hx | ⟨c, hc, hcx⟩)
          · exact hout hx
          · exact hw c hc hcx
      constructor
      · intro hx
        exact absurd hx hmem
      · intro hx
        exact absurd hx hbrk


/-- C8 (witness): the amended theorem applied to a 30-character space-free
run, to a 31-character two-word line that splits at the boundary, and to a
concrete mid-line word-wrap decision. -/
theorem C8_word_wrap_amended_witness :
    encode_ac_text (cstr "aaaaaaaaaaaaaaaaaaaaaaaaaaaaaa") =
      .ok ((cstr "aaaaaaaaaaaaaaaaaaaaaaaaaaaaaa").map (fun c => (revCharGet c).getD 0) ++ [0x00]) ∧
    encode_ac_text (cstr "aaaaaaaaaaaaaaa" ++ ' ' :: cstr "bbbbbbbbbbbbbbb") =
      .ok ((cstr "aaaaaaaaaaaaaaa").map (fun c => (revCharGet c).getD 0) ++ 0xCD ::
        ((cstr "bbbbbbbbbbbbbbb").map (fun c => (revCharGet c).getD 0) ++ [0x00])) ∧
    (0xCD ∈ (processWord ⟨[], 5⟩ 1 (cstr "aaaaaaaaaaaaaaaaaaaaaaaaaa")).out ↔
      0 < 5 ∧ 30 < 5 + (if 0 < 1 ∧ 0 < 5 then 1 else 0) + (cstr "aaaaaaaaaaaaaaaaaaaaaaaaaa").length) := by
  refine ⟨?_, ?_, ?_⟩
  · exact C8_word_wrap_amended.1 (cstr "aaaaaaaaaaaaaaaaaaaaaaaaaaaaaa") (by decide) (by decide)
      (by decide) (by decide) (by decide)
  · exact C8_word_wrap_amended.2.1 (cstr "aaaaaaaaaaaaaaa") (cstr "bbbbbbbbbbbbbbb") (by decide)
      (by decide) (by decide) (by decide) (by decide) (by decide)
  · exact C8_word_wrap_amended.2.2 ⟨[], 5⟩ 1 (cstr "aaaaaaaaaaaaaaaaaaaaaaaaaa") (by decide) (by decide)

/-! ### C1 — round-trip -/

/-- Spec-side composition (C1): decode the encoding, `none` when the encoder
raises. -/
def decodeOfEncode (s : List Char) : Option (List Char) :=
  match encode_ac_text s with
  | .ok bs => some (parse_ac_text bs)
  | .error _ => none

theorem hexCharVal_hexDigitChar (d : Nat) (h : d < 16) :
    hexCharVal (hexDigitChar d) = d := by
  interval_cases d <;> decide

theorem isHexDigitChar_hexDigitChar (d : Nat) (h : d < 16) :
    isHexDigitChar (hexDigitChar d) = true := by
  interval_cases d <;> decide

theorem hexDigit_not_special (c : Char) (h : isHexDigitChar c = true) :
    c ≠ '[' ∧ c ≠ ']' ∧ c ≠ Char.ofNat 10 ∧ c ≠ '>' ∧ c ≠ '<' := by
  simp only [isHexDigitChar, decide_eq_true_eq] at h
  refine ⟨?_, ?_, ?_, ?_, ?_⟩ <;>
    (intro hc; subst hc; revert h; decide)

theorem natToHex_allHex (v : Nat) :
    ∀ c ∈ natToHex v, isHexDigitChar c = true := by
  induction v using Nat.strong_induction_on with
  | _ v ih =>
    by_cases h0 : v = 0
    · subst h0
      intro c hc
      rw [show natToHex 0 = [] from rfl] at hc
      exact absurd hc (List.not_mem_nil c)
    · rw [natToHex_succ v h0]
      intro c hc
      rcases List.mem_append.mp hc with hc | hc
      · exact ih (v / 16) (Nat.div_lt_self (Nat.pos_of_ne_zero h0) (by omega)) c hc
      · rw [List.mem_singleton.mp hc]
        exact isHexDigitChar_hexDigitChar _ (Nat.mod_lt _ (by omega))

theorem natToHex_len : ∀ (w v : Nat), v < 16 ^ w → (natToHex v).length ≤ w := by
  intro w
  induction w with
  | zero =>
    intro v hv
    interval_cases v
    decide
  | succ w ih =>
    intro v hv
    by_cases h0 : v = 0
    · subst h0
      rw [show natToHex 0 = [] from rfl]
      simp
    · rw [natToHex_succ v h0]
      have hdiv : v / 16 < 16 ^ w := by
        rw [Nat.div_lt_iff_lt_mul (by omega)]
        calc v < 16 ^ (w + 1) := hv
        _ = 16 ^ w * 16 := by ring
      have := ih (v / 16) hdiv
      simp only [List.length_append, List.length_singleton]
      omega

theorem hexValue_concat (ds : List Char) (c : Char) :
    hexValue (ds ++ [c]) = 16 * hexValue ds + hexCharVal c := by
  simp [hexValue, List.foldl_append]

theorem natToHex_value (v : Nat) : hexValue (natToHex v) = v := by
  induction v using Nat.strong_induction_on with
  | _ v ih =>
    by_cases h0 : v = 0
    · subst h0
      decide
    · rw [natToHex_succ v h0, hexValue_concat,
        ih (v / 16) (Nat.div_lt_self (Nat.pos_of_ne_zero h0) (by omega)),
        hexCharVal_hexDigitChar _ (Nat.mod_lt _ (by omega))]
      omega

theorem hexValue_zeros (k : Nat) (l : List Char) :
    hexValue (List.replicate k '0' ++ l) = hexValue l := by
  induction k with
  | zero => rfl
  | succ k ih =>
    show hexValue ('0' :: (List.replicate k '0' ++ l)) = hexValue l
    have : hexValue ('0' :: (List.replicate k '0' ++ l)) =
        (List.replicate k '0' ++ l).foldl (fun acc c => 16 * acc + hexCharVal c)
          (16 * 0 + hexCharVal '0') := rfl
    rw [this]
    have h0 : (16 * 0 + hexCharVal '0') = 0 := by decide
    rw [h0]
    exact ih

theorem hexPad_value (w v : Nat) : hexValue (hexPad w v) = v := by
  unfold hexPad
  by_cases h0 : v = 0
  · subst h0
    simp only [if_pos rfl]
    rw [hexValue_zeros]
    decide
  · simp only [if_neg h0]
    rw [hexValue_zeros, natToHex_value]

theorem hexPad_allHex (w v : Nat) :
    ∀ c ∈ hexPad w v, isHexDigitChar c = true := by
  unfold hexPad
  intro c hc
  simp only [] at hc
  rcases List.mem_append.mp hc with hc | hc
  · rw [List.eq_of_mem_replicate hc]
    decide
  · by_cases h0 : v = 0
    · rw [if_pos h0] at hc
      rw [List.mem_singleton.mp hc]
      decide
    · rw [if_neg h0] at hc
      exact natToHex_allHex v c hc

theorem hexPad_len (w v : Nat) (hw : 0 < w) (hv : v < 16 ^ w) :
    (hexPad w v).length = w := by
  unfold hexPad
  by_cases h0 : v = 0
  · simp [h0]
    omega
  · simp only [if_neg h0, List.length_append, List.length_replicate]
    have := natToHex_len w v hv
    omega

theorem hexPad_ne_nil (w v : Nat) : hexPad w v ≠ [] := by
  unfold hexPad
  by_cases h0 : v = 0
  · simp [h0]
  · simp only [if_neg h0]
    intro h
    have h2 := List.append_eq_nil.mp h
    have h3 := natToHex_value v
    rw [h2.2] at h3
    exact h0 (by simpa [hexValue] using h3.symm)


theorem closeBracketIdx_append (hs : List Char) (s2 : List Char)
    (h : ∀ c ∈ hs, c ≠ ']') :
    closeBracketIdx (hs ++ ']' :: s2) = some hs.length := by
  induction hs with
  | nil => rfl
  | cons c cs ih =>
    show closeBracketIdx (c :: (cs ++ ']' :: s2)) = some (cs.length + 1)
    simp only [closeBracketIdx]
    rw [if_neg (h c (List.mem_cons_self _ _))]
    rw [ih (fun x hx => h x (List.mem_cons_of_mem _ hx))]
    rfl

theorem takeWhile_all {p : Char → Bool} (l : List Char)
    (h : ∀ c ∈ l, p c = true) : l.takeWhile p = l := by
  induction l with
  | nil => rfl
  | cons c cs ih =>
    rw [List.takeWhile_cons, if_pos (h c (List.mem_cons_self _ _))]
    rw [ih (fun x hx => h x (List.mem_cons_of_mem _ hx))]

theorem blankArgs_append_pre (s1 : List Char) (rest : List Char)
    (h : ∀ c ∈ s1, c ≠ '[') :
    blankArgs (s1 ++ rest) = s1 ++ blankArgs rest := by
  induction s1 with
  | nil => rfl
  | cons c cs ih =>
    show blankArgs (c :: (cs ++ rest)) = _
    rw [blankArgs_cons]
    rw [if_neg (h c (List.mem_cons_self _ _))]
    rw [ih (fun x hx => h x (List.mem_cons_of_mem _ hx))]
    rfl

theorem blankArgs_bracket (hs : List Char) (s2 : List Char)
    (hnb : ∀ c ∈ hs, c ≠ ']') (hnn : ∀ c ∈ hs, c ≠ Char.ofNat 10) :
    blankArgs ('[' :: (hs ++ ']' :: s2)) = '[' :: ']' :: blankArgs s2 := by
  rw [blankArgs_cons, if_pos rfl, closeBracketIdx_append hs s2 hnb]
  have htake : (hs ++ ']' :: s2).take hs.length = hs := List.take_left _ _
  have hdrop : (hs ++ ']' :: s2).drop (hs.length + 1) = s2 := by
    have h1 : (hs ++ ']' :: s2).drop hs.length = ']' :: s2 := List.drop_left _ _
    rw [← List.drop_drop, h1]
    rfl
  simp only [htake, hdrop]
  rw [if_pos ?hall]
  case hall =>
    simp only [List.all_eq_true, decide_eq_true_eq]
    exact hnn

theorem extractArgs_append_pre (s1 : List Char) (rest : List Char)
    (h : ∀ c ∈ s1, c ≠ '[') :
    extractArgs (s1 ++ rest) = extractArgs rest := by
  induction s1 with
  | nil => rfl
  | cons c cs ih =>
    show extractArgs (c :: (cs ++ rest)) = _
    rw [extractArgs_cons]
    rw [if_neg (h c (List.mem_cons_self _ _))]
    exact ih (fun x hx => h x (List.mem_cons_of_mem _ hx))

theorem extractArgs_bracket (hs : List Char) (s2 : List Char)
    (hhex : ∀ c ∈ hs, isHexDigitChar c = true) (hne : hs ≠ [])
    (hlen : hs.length ≤ 6) :
    extractArgs ('[' :: (hs ++ ']' :: s2)) = hexValue hs :: extractArgs s2 := by
  have hnb : ∀ c ∈ hs, c ≠ ']' := fun c hc => (hexDigit_not_special c (hhex c hc)).2.1
  rw [extractArgs_cons, if_pos rfl, closeBracketIdx_append hs s2 hnb]
  have htake : (hs ++ ']' :: s2).take hs.length = hs := List.take_left _ _
  have hdrop : (hs ++ ']' :: s2).drop (hs.length + 1) = s2 := by
    have h1 : (hs ++ ']' :: s2).drop hs.length = ']' :: s2 := List.drop_left _ _
    rw [← List.drop_drop, h1]
    rfl
  simp only [htake, hdrop]
  have hrun : trailingHexRun hs = hs := by
    unfold trailingHexRun
    rw [takeWhile_all hs.reverse (fun c hc => hhex c (List.mem_reverse.mp hc))]
    exact List.reverse_reverse hs
  rw [hrun]
  rw [if_neg hne]
  have hgt : ¬ hs.length > 6 := by omega
  simp only [hgt, if_neg, not_false_iff, reduceIte]


/-- A char is glyph-safe when its byte is reserved-free and looks back up to
exactly that one-character glyph. -/
def glyphSafe (c : Char) : Prop :=
  ∃ b, revCharGet c = some b ∧ b ≠ 0 ∧ b ≠ PREFIX_BYTE ∧
    dictGet CHARACTER_MAP b = some [c]

instance (c : Char) : Decidable (glyphSafe c) := by
  unfold glyphSafe
  cases hb : revCharGet c with
  | none =>
    exact .isFalse (by rintro ⟨b, hb2, _⟩; cases hb2)
  | some b =>
    by_cases h : b ≠ 0 ∧ b ≠ PREFIX_BYTE ∧ dictGet CHARACTER_MAP b = some [c]
    · exact .isTrue ⟨b, rfl, h.1, h.2.1, h.2.2⟩
    · refine .isFalse ?_
      rintro ⟨b2, hb2, h0, hp, hmap⟩
      cases hb2
      exact h ⟨h0, hp, hmap⟩

theorem parse_glyph_word (w : List Char) (h : ∀ c ∈ w, glyphSafe c) :
    parse_loop (w.map (fun c => (revCharGet c).getD 0) ++ [0]) = w := by
  induction w with
  | nil => rfl
  | cons c cs ih =>
    obtain ⟨b, hb, hb0, hbp, hinv⟩ := h c (List.mem_cons_self _ _)
    have hmap : (c :: cs).map (fun c => (revCharGet c).getD 0) =
        b :: cs.map (fun c => (revCharGet c).getD 0) := by
      simp [hb]
    rw [hmap]
    show parse_loop (b :: (cs.map (fun c => (revCharGet c).getD 0) ++ [0])) = _
    rw [parse_loop_glyph b _ hb0 hbp, hinv,
      ih (fun x hx => h x (List.mem_cons_of_mem _ hx))]
    rfl


theorem encodeToken_hexTag (st : EncSt) (cmd wd v : Nat) (pre2 : List Char)
    (ab : List Nat) (hpre : ∀ c ∈ pre2, c ≠ '[')
    (hkey : dictGetL REVERSE_CONTROL_CODES
      ('<' :: (pre2 ++ ('[' :: (']' :: ['>'])))) = some cmd)
    (hwd0 : 0 < wd) (hwd6 : wd ≤ 6) (hv : v < 16 ^ wd)
    (hn : 0 < argCount cmd)
    (hpack : packArgs cmd (argCount cmd) [v] = .ok ab) :
    encodeToken st ('<' :: (pre2 ++ ('[' :: (hexPad wd v ++ (']' :: ['>']))))) =
      .ok ⟨st.out ++ [PREFIX_BYTE, cmd] ++ ab, st.cnt⟩ := by
  have hhex := hexPad_allHex wd v
  have hlen : (hexPad wd v).length = wd := hexPad_len wd v hwd0 hv
  have hTne : ('<' :: (pre2 ++ ('[' :: (hexPad wd v ++ (']' :: ['>']))))) ≠
      ([] : List Char) := by
    simp
  have hhead : ('<' :: (pre2 ++ ('[' :: (hexPad wd v ++
      (']' :: ['>']))))).head? = some '<' := rfl
  have hlast : ('<' :: (pre2 ++ ('[' :: (hexPad wd v ++
      (']' :: ['>']))))).getLast? = some '>' := by
    have hsh : ('<' :: (pre2 ++ ('[' :: (hexPad wd v ++ (']' :: ['>']))))) =
        ('<' :: (pre2 ++ ('[' :: (hexPad wd v ++ [']'])))) ++ ['>'] := by
      simp
    rw [hsh, List.getLast?_concat]
  have hblank : blankArgs ('<' :: (pre2 ++ ('[' :: (hexPad wd v ++
      (']' :: ['>']))))) = '<' :: (pre2 ++ ('[' :: (']' :: ['>']))) := by
    have hsh : ('<' :: (pre2 ++ ('[' :: (hexPad wd v ++ (']' :: ['>']))))) =
        ('<' :: pre2) ++ ('[' :: (hexPad wd v ++ (']' :: ['>']))) := by
      simp
    rw [hsh, blankArgs_append_pre ('<' :: pre2) _ ?hp]
    case hp =>
      intro c hc
      rcases List.mem_cons.mp hc with rfl | hc
      · decide
      · exact hpre c hc
    rw [blankArgs_bracket (hexPad wd v) ['>']
      (fun c hc => (hexDigit_not_special c (hhex c hc)).2.1)
      (fun c hc => (hexDigit_not_special c (hhex c hc)).2.2.1)]
    rfl
  have hargs : extractArgs ('<' :: (pre2 ++ ('[' :: (hexPad wd v ++
      (']' :: ['>']))))) = [v] := by
    have hsh : ('<' :: (pre2 ++ ('[' :: (hexPad wd v ++ (']' :: ['>']))))) =
        ('<' :: pre2) ++ ('[' :: (hexPad wd v ++ (']' :: ['>']))) := by
      simp
    rw [hsh, extractArgs_append_pre ('<' :: pre2) _ ?hp2]
    case hp2 =>
      intro c hc
      rcases List.mem_cons.mp hc with rfl | hc
      · decide
      · exact hpre c hc
    rw [extractArgs_bracket (hexPad wd v) ['>'] hhex (hexPad_ne_nil wd v)
      (by omega)]
    rw [hexPad_value]
    rfl
  unfold encodeToken
  rw [if_neg hTne, if_pos ⟨hhead, hlast⟩]
  simp only [hblank, hargs, hkey]
  rw [if_pos hn]
  simp only [hpack]


theorem decodeOfEncode_word (w : List Char) (hw : w ≠ [])
    (hpipe : sanitize_for_charset (normalize_visible_text
      (normalize_control_tags w)) = w)
    (hsplit : splitTags w = [w]) (hws : pySplitSpace w [] = [w])
    (hchars : ∀ c ∈ w, glyphSafe c ∧ c ≠ Char.ofNat 10 ∧ c ≠ '<') :
    decodeOfEncode w = some w := by
  have hhead : w.head? ≠ some '<' := by
    cases w with
    | nil => simp
    | cons c cs =>
      intro hcon
      have hc : c = '<' := by
        injection hcon
      exact (hchars c (List.mem_cons_self _ _)).2.2 hc
  have htok := encodeToken_word ⟨[], 0⟩ w hw hhead
  rw [hws] at htok
  have hpw : processWords ⟨[], 0⟩ [w] = processChars [] 0 w := by
    have h0 : processWords ⟨[], 0⟩ [w] = processWord ⟨[], 0⟩ 0 w := rfl
    rw [h0, processWord_start _ _ _ rfl]
  have hmap := processChars_mapped w [] 0 (fun c hc => by
    obtain ⟨b, hb, _⟩ := (hchars c hc).1
    exact ⟨by simp [hb], (hchars c hc).2.1⟩)
  rw [hpw, hmap] at htok
  have htoks : encodeTokens ⟨[], 0⟩ [w] =
      .ok ⟨[] ++ w.map (fun c => (revCharGet c).getD 0), 0 + w.length⟩ := by
    simp only [encodeTokens]
    rw [htok]
  have hdo : decodeOfEncode w = some (parse_ac_text
      (([] ++ w.map (fun c => (revCharGet c).getD 0)) ++ [0])) := by
    unfold decodeOfEncode encode_ac_text
    rw [hpipe, hsplit, htoks]
  rw [hdo]
  rw [show ([] ++ w.map (fun c => (revCharGet c).getD 0)) ++ [0] =
    w.map (fun c => (revCharGet c).getD 0) ++ [0] from by simp]
  show some (parse_loop _) = some w
  rw [parse_glyph_word w (fun c hc => (hchars c hc).1)]


theorem encodeToken_nil (st : EncSt) : encodeToken st [] = .ok st := rfl

theorem encodeTokens_step (st st2 : EncSt) (tok : List Char)
    (toks : List (List Char)) (hk : encodeToken st tok = .ok st2) :
    encodeTokens st (tok :: toks) = encodeTokens st2 toks := by
  simp only [encodeTokens, hk]

theorem decodeOfEncode_hexTag (cmd wd v : Nat) (pre2 : List Char)
    (hpre : ∀ c ∈ pre2, c ≠ '[')
    (htpl : dictGet CONTROL_CODES cmd = some [.lit ('<' :: (pre2 ++ ['['])),
      .ahex wd, .lit (cstr "]>")])
    (hkey : dictGetL REVERSE_CONTROL_CODES
      ('<' :: (pre2 ++ ('[' :: (']' :: ['>'])))) = some cmd)
    (hc0 : cmd ≠ 0)
    (hpipe : sanitize_for_charset (normalize_visible_text (normalize_control_tags
      ('<' :: (pre2 ++ ('[' :: (hexPad wd v ++ (']' :: ['>']))))))) =
      '<' :: (pre2 ++ ('[' :: (hexPad wd v ++ (']' :: ['>'])))))
    (hsplitT : splitTags ('<' :: (pre2 ++ ('[' :: (hexPad wd v ++
      (']' :: ['>']))))) = [[], '<' :: (pre2 ++ ('[' :: (hexPad wd v ++
      (']' :: ['>'])))), []])
    (hcase : (argCount cmd = 1 ∧ wd = 2 ∧ v < 256 ∧ cmd ≠ 0x08 ∧ cmd ≠ 0x09 ∧
        cmd ≠ 0x56 ∧ cmd ≠ 0x57 ∧ cmd ≠ 0x59) ∨
      (argCount cmd = 2 ∧ wd = 4 ∧ v < 65536 ∧ cmd ≠ 0x08 ∧ cmd ≠ 0x09 ∧
        cmd ≠ 0x56 ∧ cmd ≠ 0x57) ∨
      (argCount cmd = 3 ∧ cmd = 0x05 ∧ wd = 6 ∧ v < 16777216)) :
    decodeOfEncode ('<' :: (pre2 ++ ('[' :: (hexPad wd v ++ (']' :: ['>']))))) =
      some ('<' :: (pre2 ++ ('[' :: (hexPad wd v ++ (']' :: ['>']))))) := by
  have hwd0 : 0 < wd := by
    rcases hcase with ⟨_, h, _⟩ | ⟨_, h, _⟩ | ⟨_, _, h, _⟩ <;> omega
  have hwd6 : wd ≤ 6 := by
    rcases hcase with ⟨_, h, _⟩ | ⟨_, h, _⟩ | ⟨_, _, h, _⟩ <;> omega
  have hn : 0 < argCount cmd := by
    rcases hcase with ⟨h, _⟩ | ⟨h, _⟩ | ⟨h, _⟩ <;> omega
  have hv16 : v < 16 ^ wd := by
    rcases hcase with ⟨_, hw2, hv, _⟩ | ⟨_, hw2, hv, _⟩ | ⟨_, _, hw2, hv⟩ <;>
      (subst hw2; norm_num; omega)
  have hfmt : fmtDesc [.lit ('<' :: (pre2 ++ ['['])), .ahex wd,
      .lit (cstr "]>")] [.num v] =
      ('<' :: (pre2 ++ ['['])) ++ (hexPad wd v ++ (cstr "]>" ++ [])) := rfl
  have hz : parse_loop [0] = [] := rfl
  rcases hcase with ⟨hac, hw2, hv, h8, h9, h56, h57, h59⟩ |
    ⟨hac, hw2, hv, h8, h9, h56, h57⟩ | ⟨hac, hc5, hw2, hv⟩
  · have hpack : packArgs cmd (argCount cmd) [v] = .ok [v] := by
      rw [hac]
      have h1 : packArgs cmd 1 [v] = packB v := rfl
      rw [h1]
      unfold packB
      rw [if_pos hv]
    have henc := encodeToken_hexTag ⟨[], 0⟩ cmd wd v pre2 [v] hpre hkey hwd0
      hwd6 hv16 hn hpack
    have htoks : encodeTokens ⟨[], 0⟩
        [[], '<' :: (pre2 ++ ('[' :: (hexPad wd v ++ (']' :: ['>'])))), []] =
        .ok ⟨[] ++ [PREFIX_BYTE, cmd] ++ [v], 0⟩ := by
      rw [encodeTokens_step _ _ _ _ (encodeToken_nil _),
        encodeTokens_step _ _ _ _ henc,
        encodeTokens_step _ _ _ _ (encodeToken_nil _)]
      rfl
    have hdo : decodeOfEncode
        ('<' :: (pre2 ++ ('[' :: (hexPad wd v ++ (']' :: ['>']))))) =
        some (parse_ac_text (([] ++ [PREFIX_BYTE, cmd] ++ [v]) ++ [0])) := by
      unfold decodeOfEncode encode_ac_text
      rw [hpipe, hsplitT, htoks]
    rw [hdo]
    have hsplit2 : ([] ++ [PREFIX_BYTE, cmd] ++ [v]) ++ [0] =
        PREFIX_BYTE :: cmd :: ([v] ++ [0]) := by
      simp
    rw [hsplit2]
    show some (parse_loop _) = _
    rw [parse_loop_control cmd ([v] ++ [0]) hc0 hn (by rw [hac]; simp)]
    rw [hac]
    have htk : ([v] ++ [0]).take 1 = [v] := rfl
    have hdr : ([v] ++ [0]).drop 1 = [0] := rfl
    rw [htk, hdr]
    have hct : controlArgsTuple cmd 1 [v] = [.num v] := by
      unfold controlArgsTuple
      rw [if_neg (by simp [h8, h9]), if_neg (by simp [h56, h57]),
        if_pos rfl, if_neg h59]
    rw [hct, htpl]
    simp only [Option.getD_some]
    rw [hz, hfmt]
    simp [cstr]
  · have hpack : packArgs cmd (argCount cmd) [v] = .ok [v / 256, v % 256] := by
      rw [hac]
      have h1 : packArgs cmd 2 [v] = packH v := rfl
      rw [h1]
      unfold packH
      rw [if_pos hv]
    have henc := encodeToken_hexTag ⟨[], 0⟩ cmd wd v pre2 [v / 256, v % 256]
      hpre hkey hwd0 hwd6 hv16 hn hpack
    have htoks : encodeTokens ⟨[], 0⟩
        [[], '<' :: (pre2 ++ ('[' :: (hexPad wd v ++ (']' :: ['>'])))), []] =
        .ok ⟨[] ++ [PREFIX_BYTE, cmd] ++ [v / 256, v % 256], 0⟩ := by
      rw [encodeTokens_step _ _ _ _ (encodeToken_nil _),
        encodeTokens_step _ _ _ _ henc,
        encodeTokens_step _ _ _ _ (encodeToken_nil _)]
      rfl
    have hdo : decodeOfEncode
        ('<' :: (pre2 ++ ('[' :: (hexPad wd v ++ (']' :: ['>']))))) =
        some (parse_ac_text (([] ++ [PREFIX_BYTE, cmd] ++ [v / 256, v % 256]) ++
          [0])) := by
      unfold decodeOfEncode encode_ac_text
      rw [hpipe, hsplitT, htoks]
    rw [hdo]
    have hsplit2 : ([] ++ [PREFIX_BYTE, cmd] ++ [v / 256, v % 256]) ++ [0] =
        PREFIX_BYTE :: cmd :: ([v / 256, v % 256] ++ [0]) := by
      simp
    rw [hsplit2]
    show some (parse_loop _) = _
    rw [parse_loop_control cmd ([v / 256, v % 256] ++ [0]) hc0 hn
      (by rw [hac]; simp)]
    rw [hac]
    have htk : ([v / 256, v % 256] ++ [0]).take 2 = [v / 256, v % 256] := rfl
    have hdr : ([v / 256, v % 256] ++ [0]).drop 2 = [0] := rfl
    rw [htk, hdr]
    have hct : controlArgsTuple cmd 2 [v / 256, v % 256] = [.num v] := by
      unfold controlArgsTuple
      rw [if_neg (by simp [h8, h9]), if_neg (by simp [h56, h57]),
        if_neg (by omega), if_pos rfl]
      have hvm : v / 256 * 256 + v % 256 = v := by omega
      show [FmtArg.num (v / 256 * 256 + v % 256)] = [FmtArg.num v]
      rw [hvm]
    rw [hct, htpl]
    simp only [Option.getD_some]
    rw [hz, hfmt]
    simp [cstr]
  · subst hc5
    have hpack : packArgs 5 (argCount 5) [v] =
        .ok [v / 65536, v / 256 % 256, v % 256] := by
      rw [hac]
      have h1 : packArgs 5 3 [v] = pack3 v := rfl
      rw [h1]
      unfold pack3
      rw [if_pos hv]
    have henc := encodeToken_hexTag ⟨[], 0⟩ 5 wd v pre2
      [v / 65536, v / 256 % 256, v % 256] hpre hkey hwd0 hwd6 hv16 hn hpack
    have htoks : encodeTokens ⟨[], 0⟩
        [[], '<' :: (pre2 ++ ('[' :: (hexPad wd v ++ (']' :: ['>'])))), []] =
        .ok ⟨[] ++ [PREFIX_BYTE, 5] ++ [v / 65536, v / 256 % 256, v % 256],
          0⟩ := by
      rw [encodeTokens_step _ _ _ _ (encodeToken_nil _),
        encodeTokens_step _ _ _ _ henc,
        encodeTokens_step _ _ _ _ (encodeToken_nil _)]
      rfl
    have hdo : decodeOfEncode
        ('<' :: (pre2 ++ ('[' :: (hexPad wd v ++ (']' :: ['>']))))) =
        some (parse_ac_text (([] ++ [PREFIX_BYTE, 5] ++
          [v / 65536, v / 256 % 256, v % 256]) ++ [0])) := by
      unfold decodeOfEncode encode_ac_text
      rw [hpipe, hsplitT, htoks]
    rw [hdo]
    have hsplit2 : ([] ++ [PREFIX_BYTE, 5] ++ [v / 65536, v / 256 % 256,
        v % 256]) ++ [0] =
        PREFIX_BYTE :: 5 :: ([v / 65536, v / 256 % 256, v % 256] ++ [0]) := by
      simp
    rw [hsplit2]
    show some (parse_loop _) = _
    rw [parse_loop_control 5 ([v / 65536, v / 256 % 256, v % 256] ++ [0]) hc0 hn
      (by rw [hac]; simp)]
    rw [hac]
    have htk : ([v / 65536, v / 256 % 256, v % 256] ++ [0]).take 3 =
        [v / 65536, v / 256 % 256, v % 256] := rfl
    have hdr : ([v / 65536, v / 256 % 256, v % 256] ++ [0]).drop 3 = [0] := rfl
    rw [htk, hdr]
    have hct : controlArgsTuple 5 3 [v / 65536, v / 256 % 256, v % 256] =
        [.num v] := by
      unfold controlArgsTuple
      rw [if_neg (by decide), if_neg (by decide), if_neg (by decide),
        if_neg (by decide), if_pos ⟨rfl, rfl⟩]
      have hvm : v / 65536 * 65536 + v / 256 % 256 * 256 + v % 256 = v := by
        omega
      show [FmtArg.num (v / 65536 * 65536 + v / 256 % 256 * 256 + v % 256)] =
        [FmtArg.num v]
      rw [hvm]
    rw [hct, htpl]
    simp only [Option.getD_some]
    rw [hz, hfmt]
    simp [cstr]


/-- C1 (counterexample): the canonical display text
`<Play Music [Silence] [None]>` — itself the decode of the byte sequence
`7F 56 00 00` — does not survive a round trip: the encoder re-derives the
arguments by scraping trailing hex digits from the bracket contents
(`Silence` → `CE`, `None` → `E`), packs the first scrape as a 16-bit value and
drops the second, so decoding the encoding yields
`<Play Music [Silence] [Unknown_Transition_CE]>`. -/
theorem C1_roundtrip_counterexample :
    parse_ac_text [0x7F, 0x56, 0x00, 0x00, 0x00] =
      cstr "<Play Music [Silence] [None]>" ∧
    encode_ac_text (cstr "<Play Music [Silence] [None]>") =
      .ok [0x7F, 0x56, 0x00, 0xCE, 0x00] ∧
    decodeOfEncode (cstr "<Play Music [Silence] [None]>") =
      some (cstr "<Play Music [Silence] [Unknown_Transition_CE]>") ∧
    cstr "<Play Music [Silence] [Unknown_Transition_CE]>" ≠
      cstr "<Play Music [Silence] [None]>" :=
  ⟨rfl, rfl, rfl, by decide⟩

set_option maxHeartbeats 8000000

/-- C1 (amended): the round trip `decode ∘ encode = id` holds on three
canonical families, but not on every recognized canonical tag (see the
counterexample: name-valued tags such as `<Play Music [...] [...]>` are
re-encoded by hex-scraping their names and do not round-trip):
(i) a plain visible word of glyph-safe characters;
(ii) any recognized tag with one zero-padded uppercase hex argument —
the `<Pause [XX]>`, `<Line Type [XX]>`, jump/size `[XXXX]` and
`<Color Line [XXXXXX]>` families — for every in-range argument value, with
zero-padding reproduced exactly;
(iii) every argument-less tag of the control table. -/
theorem C1_roundtrip_amended :
    (∀ w : List Char, w ≠ [] →
      sanitize_for_charset (normalize_visible_text
        (normalize_control_tags w)) = w →
      splitTags w = [w] →
      pySplitSpace w [] = [w] →
      (∀ c ∈ w, glyphSafe c ∧ c ≠ Char.ofNat 10 ∧ c ≠ '<') →
      decodeOfEncode w = some w) ∧
    (∀ (cmd wd v : Nat) (pre2 : List Char),
      (∀ c ∈ pre2, c ≠ '[') →
      dictGet CONTROL_CODES cmd = some [.lit ('<' :: (pre2 ++ ['['])),
        .ahex wd, .lit (cstr "]>")] →
      dictGetL REVERSE_CONTROL_CODES
        ('<' :: (pre2 ++ ('[' :: (']' :: ['>'])))) = some cmd →
      cmd ≠ 0 →
      sanitize_for_charset (normalize_visible_text (normalize_control_tags
        ('<' :: (pre2 ++ ('[' :: (hexPad wd v ++ (']' :: ['>']))))))) =
        '<' :: (pre2 ++ ('[' :: (hexPad wd v ++ (']' :: ['>'])))) →
      splitTags ('<' :: (pre2 ++ ('[' :: (hexPad wd v ++ (']' :: ['>']))))) =
        [[], '<' :: (pre2 ++ ('[' :: (hexPad wd v ++ (']' :: ['>'])))), []] →
      ((argCount cmd = 1 ∧ wd = 2 ∧ v < 256 ∧ cmd ≠ 0x08 ∧ cmd ≠ 0x09 ∧
          cmd ≠ 0x56 ∧ cmd ≠ 0x57 ∧ cmd ≠ 0x59) ∨
        (argCount cmd = 2 ∧ wd = 4 ∧ v < 65536 ∧ cmd ≠ 0x08 ∧ cmd ≠ 0x09 ∧
          cmd ≠ 0x56 ∧ cmd ≠ 0x57) ∨
        (argCount cmd = 3 ∧ cmd = 0x05 ∧ wd = 6 ∧ v < 16777216)) →
      decodeOfEncode
          ('<' :: (pre2 ++ ('[' :: (hexPad wd v ++ (']' :: ['>']))))) =
        some ('<' :: (pre2 ++ ('[' :: (hexPad wd v ++ (']' :: ['>'])))))) ∧
    (∀ p ∈ CONTROL_CODES, argCount p.1 = 0 →
      decodeOfEncode (rawDesc p.2) = some (rawDesc p.2)) :=
  ⟨decodeOfEncode_word, decodeOfEncode_hexTag, by decide⟩

/-- C1 (witness): the amended theorem applied to the word `Hello`, to
`<Choice 1 Jump [003F]>` (value `0x3F`, zero-padded to four digits) and to the
argument-less `<Press A>`. -/
theorem C1_roundtrip_amended_witness :
    decodeOfEncode (cstr "Hello") = some (cstr "Hello") ∧
    decodeOfEncode ('<' :: (cstr "Choice 1 Jump " ++
        ('[' :: (hexPad 4 0x3F ++ (']' :: ['>']))))) =
      some ('<' :: (cstr "Choice 1 Jump " ++
        ('[' :: (hexPad 4 0x3F ++ (']' :: ['>']))))) ∧
    decodeOfEncode (rawDesc [.lit (cstr "<Press A>")]) =
      some (rawDesc [.lit (cstr "<Press A>")]) := by
  refine ⟨?_, ?_, ?_⟩
  · exact C1_roundtrip_amended.1 (cstr "Hello") (by decide) (by decide)
      (by decide) (by decide) (by decide)
  · exact C1_roundtrip_amended.2.1 0x0F 4 0x3F (cstr "Choice 1 Jump ")
      (by decide) (by decide) (by decide) (by decide) (by decide) (by decide)
      (by decide)
  · exact C1_roundtrip_amended.2.2 (0x04, [.lit (cstr "<Press A>")])
      (by decide) (by decide)

end ACG
